import Mathlib

set_option maxHeartbeats 1000000

noncomputable section

namespace AirWriting

/-!
Verification development for the air-writing data pipeline.

The development shallowly embeds the two offline processing pipelines of the
repository:

* `PreProcessor.py` — per-axis leaky-integrator smoothing followed by z-score
  standardisation, applied by a two-level directory loop;
* `recordings/featureExtractor.py` — fixed-size non-overlapping windowing and
  a 101-key feature map per window, applied by a recursive directory walk.

Real-valued samples are modelled by `ℝ`.  An IEEE NaN (the result of a
degenerate statistic such as 0/0) is modelled by `none : Option ℝ`; every
zero-denominator division actually reached by this code also has a zero
numerator, so `none` for division by zero is the faithful model.  A Python
exception escaping a library call is modelled by `Except.error`.
-/

/-! ## NaN-aware numeric primitives -/

/-- Division as performed by numpy in this pipeline: the quotient for a
non-zero denominator, an undefined value (NaN, modelled as `none`) for a zero
denominator.  Every division by zero reached by the embedded code has a zero
numerator, so the value is genuinely NaN there. -/
def fdiv (a b : ℝ) : Option ℝ := if b = 0 then none else some (a / b)

/-- Model of `np.mean`: sum divided by length (NaN on the empty list). -/
def npMean (l : List ℝ) : Option ℝ := fdiv l.sum l.length

/-- Model of `np.var` (population variance, numpy default `ddof=0`). -/
def npVar (l : List ℝ) : Option ℝ :=
  (npMean l).bind fun m => npMean (l.map fun v => (v - m) ^ 2)

/-- Model of `np.std` (population standard deviation). -/
def npStd (l : List ℝ) : Option ℝ := (npVar l).map Real.sqrt

/-- Insertion into a sorted list (helper for the median). -/
def insertLe (x : ℝ) : List ℝ → List ℝ
  | [] => [x]
  | y :: t => if x ≤ y then x :: y :: t else y :: insertLe x t

/-- Insertion sort (helper for the median). -/
def sortLe (l : List ℝ) : List ℝ := l.foldr insertLe []

/-- Model of `np.median`: middle element of the sorted data, or the average of
the two middle elements for even length. -/
def npMedian (l : List ℝ) : Option ℝ :=
  let s := sortLe l
  let n := l.length
  if n = 0 then none
  else if n % 2 = 1 then some (s.getD (n / 2) 0)
  else some ((s.getD (n / 2 - 1) 0 + s.getD (n / 2) 0) / 2)

/-- Model of `np.sqrt(np.mean(a**2))` (root mean square). -/
def npRms (l : List ℝ) : Option ℝ := (npMean (l.map fun v => v ^ 2)).map Real.sqrt

/-- Model of `np.sum(a**2) / len(a)` (energy). -/
def npEnergy (l : List ℝ) : Option ℝ := fdiv (l.map fun v => v ^ 2).sum l.length

/-- Model of `((axis[:-1] * axis[1:]) < 0).sum()`: the number of adjacent
pairs with a strictly negative product. -/
def zeroCrossings (l : List ℝ) : ℕ :=
  (l.zipWith (· * ·) l.tail).countP fun p => decide (p < 0)

/-- Biased central moment `mean((a - mean a)^k)` as computed by scipy. -/
def centralMoment (l : List ℝ) (k : ℕ) : Option ℝ :=
  (npMean l).bind fun m => npMean (l.map fun v => (v - m) ^ k)

/-- Model of `scipy.stats.skew` (default `bias=True`): `m3 / m2 ** 1.5`.
For a constant window `m2 = 0` and `m3 = 0`, so the value is NaN (0/0). -/
def scipySkew (l : List ℝ) : Option ℝ :=
  (centralMoment l 2).bind fun m2 =>
    (centralMoment l 3).bind fun m3 => fdiv m3 (m2 ^ ((3 : ℝ) / 2))

/-- Model of `scipy.stats.kurtosis` (Fisher, `bias=True`): `m4 / m2**2 - 3`. -/
def scipyKurtosis (l : List ℝ) : Option ℝ :=
  (centralMoment l 2).bind fun m2 =>
    (centralMoment l 4).bind fun m4 => (fdiv m4 (m2 ^ 2)).map fun r => r - 3

/-- Pointwise combination of three equal-length arrays (numpy elementwise
arithmetic on the three axis arrays of one window). -/
def map3 {α β γ δ : Type} (f : α → β → γ → δ) : List α → List β → List γ → List δ
  | a :: as, b :: bs, c :: cs => f a b c :: map3 f as bs cs
  | _, _, _ => []

/-- Mean of a list of possibly-NaN values: NaN as soon as one entry is NaN
(IEEE mean propagates NaN), otherwise `np.mean`. -/
def omean (l : List (Option ℝ)) : Option ℝ := (l.mapM id).bind npMean

/-! ## Time-domain features (`compute_time_domain_features`) -/

/-- The per-sample `|x| + |y| + |z|` array used by the `sma` feature. -/
def absSum (x y z : List ℝ) : List ℝ := map3 (fun a b c => |a| + |b| + |c|) x y z

/-- The `sma` feature: `np.mean(np.abs(x) + np.abs(y) + np.abs(z))`. -/
def smaVal (x y z : List ℝ) : Option ℝ := npMean (absSum x y z)

/-- The thirteen per-axis time-domain features, in the insertion order of the
Python loop body.  `min`/`max` on an empty array raise in numpy; windows are
never empty, and the model returns `none` there. -/
def timeAxisFeatures (a : List ℝ) (nm : String) : List (String × Option ℝ) :=
  [("mean_" ++ nm, npMean a),
   ("median_" ++ nm, npMedian a),
   ("std_" ++ nm, npStd a),
   ("var_" ++ nm, npVar a),
   ("min_" ++ nm, a.min?),
   ("max_" ++ nm, a.max?),
   ("range_" ++ nm, Option.map₂ (· - ·) a.max? a.min?),
   ("rms_" ++ nm, npRms a),
   ("energy_" ++ nm, npEnergy a),
   ("zero_crossing_rate_" ++ nm, some (zeroCrossings a : ℝ)),
   ("skewness_" ++ nm, scipySkew a),
   ("kurtosis_" ++ nm, scipyKurtosis a),
   ("peak_to_peak_" ++ nm, Option.map₂ (· - ·) a.max? a.min?)]

/-- Model of `compute_time_domain_features` (featureExtractor.py lines 11-28):
the loop over `zip([x, y, z], ['x', 'y', 'z'])` followed by `sma`.  All keys
are distinct, so the Python dict in insertion order is this list. -/
def compute_time_domain_features (x y z : List ℝ) : List (String × Option ℝ) :=
  timeAxisFeatures x "x" ++ timeAxisFeatures y "y" ++ timeAxisFeatures z "z" ++
    [("sma", smaVal x y z)]

/-! ## Frequency-domain features (`compute_frequency_domain_features`) -/

/-- Discrete Fourier transform coefficient `k` of a real sequence, as computed
by `scipy.fft.fft`. -/
def dftCoeff (l : List ℝ) (k : ℕ) : ℂ :=
  ((List.range l.length).map fun j =>
    (l.getD j 0 : ℂ) *
      Complex.exp (-2 * Real.pi * Complex.I * j * k / l.length)).sum

/-- `np.abs(fft(axis))[:N // 2]`: magnitudes of the first `N / 2` DFT bins. -/
def dftMags (l : List ℝ) : List ℝ :=
  (List.range (l.length / 2)).map fun k => Complex.abs (dftCoeff l k)

/-- `np.fft.fftfreq(N, d=1/rate)[:N // 2]`: the first `N / 2` frequency values
`k * rate / N`. -/
def fftFreqs (rate : ℝ) (n : ℕ) : List ℝ :=
  (List.range (n / 2)).map fun k => k * rate / n

/-- Scanner for `np.argmax`: keeps the first index of the running maximum. -/
def argmaxGo (best : ℝ) (bi cur : ℕ) : List ℝ → ℕ
  | [] => bi
  | v :: t => if best < v then argmaxGo v cur (cur + 1) t else argmaxGo best bi (cur + 1) t

/-- Model of `np.argmax`: first index of the maximum; `np.argmax` raises on an
empty array, modelled by `none`. -/
def npArgmax : List ℝ → Option ℕ
  | [] => none
  | v :: t => some (argmaxGo v 0 1 t)

/-- Model of `scipy.stats.entropy` on a non-negative real vector: normalise by
the sum and take the Shannon entropy (`xlogy` gives `0 * log 0 = 0`, matching
Mathlib's `Real.log 0 = 0`).  A zero sum makes every normalised entry NaN, so
the result is NaN. -/
def entropyR (v : List ℝ) : Option ℝ :=
  if v.sum = 0 then none
  else some (-(v.map fun p => p / v.sum * Real.log (p / v.sum)).sum)

/-- `scipy.stats.entropy` applied to a vector that may already contain NaN
entries (any NaN input makes the result NaN). -/
def oentropy (l : List (Option ℝ)) : Option ℝ := (l.mapM id).bind entropyR

/-- The nine per-axis frequency-domain features (featureExtractor.py lines
30-52).  The Python loop raises `ValueError` for `np.argmax` of an empty
half-spectrum and `IndexError` when `fft_vals[i]` is read for `i` up to 4 but
the half-spectrum has fewer than 5 bins (window length `< 10`); both escape
as exceptions, modelled by `Except.error`. -/
def freqAxisFeatures (rate : ℝ) (a : List ℝ) (nm : String) :
    Except String (List (String × Option ℝ)) :=
  let mags := dftMags a
  let freqs := fftFreqs rate a.length
  match npArgmax mags with
  | none => Except.error "attempt to get argmax of an empty sequence"
  | some k =>
    if 5 ≤ mags.length then
      Except.ok
        [("dominant_freq_" ++ nm, some (freqs.getD k 0)),
         ("spectral_energy_" ++ nm, fdiv (mags.map fun v => v ^ 2).sum a.length),
         ("spectral_centroid_" ++ nm, fdiv (freqs.zipWith (· * ·) mags).sum mags.sum),
         ("spectral_entropy_" ++ nm, oentropy (mags.map fun v => fdiv v mags.sum)),
         ("fft_coeff_" ++ nm ++ "_0", some (mags.getD 0 0)),
         ("fft_coeff_" ++ nm ++ "_1", some (mags.getD 1 0)),
         ("fft_coeff_" ++ nm ++ "_2", some (mags.getD 2 0)),
         ("fft_coeff_" ++ nm ++ "_3", some (mags.getD 3 0)),
         ("fft_coeff_" ++ nm ++ "_4", some (mags.getD 4 0))]
    else Except.error ("index " ++ toString mags.length ++ " is out of bounds")

/-- Model of `compute_frequency_domain_features` with the default
`sampling_rate=100`. -/
def compute_frequency_domain_features (x y z : List ℝ) :
    Except String (List (String × Option ℝ)) := do
  let fx ← freqAxisFeatures 100 x "x"
  let fy ← freqAxisFeatures 100 y "y"
  let fz ← freqAxisFeatures 100 z "z"
  pure (fx ++ fy ++ fz)

/-! ## Magnitude features (`compute_magnitude_features`) -/

/-- The per-sample magnitude `np.sqrt(x**2 + y**2 + z**2)`. -/
def magOf (x y z : List ℝ) : List ℝ :=
  map3 (fun a b c => Real.sqrt (a ^ 2 + b ^ 2 + c ^ 2)) x y z

/-- Feature `magnitude_mean`. -/
def magnitudeMeanVal (x y z : List ℝ) : Option ℝ := npMean (magOf x y z)

/-- Feature `magnitude_var`. -/
def magnitudeVarVal (x y z : List ℝ) : Option ℝ := npVar (magOf x y z)

/-- Feature `magnitude_rms`. -/
def magnitudeRmsVal (x y z : List ℝ) : Option ℝ := npRms (magOf x y z)

/-- Model of `compute_magnitude_features` (featureExtractor.py lines 54-61). -/
def compute_magnitude_features (x y z : List ℝ) : List (String × Option ℝ) :=
  [("magnitude_mean", magnitudeMeanVal x y z),
   ("magnitude_var", magnitudeVarVal x y z),
   ("magnitude_rms", magnitudeRmsVal x y z)]

/-! ## Cross-axis features (`compute_cross_axis_features`) -/

/-- Pearson correlation `np.corrcoef(a, b)[0, 1]`.  When either argument has
zero variance the denominator is zero and the numerator is zero as well, so
the value is NaN. -/
def pearson (a b : List ℝ) : Option ℝ :=
  (npMean a).bind fun ma =>
    (npMean b).bind fun mb =>
      fdiv ((a.zipWith (fun u v => (u - ma) * (v - mb)) b).sum)
        (Real.sqrt ((a.map fun u => (u - ma) ^ 2).sum) *
          Real.sqrt ((b.map fun v => (v - mb) ^ 2).sum))

/-- Sample covariance `np.cov(a, b)[0, 1]` (numpy default `ddof=1`); NaN for a
single sample (0/0). -/
def sampleCov (a b : List ℝ) : Option ℝ :=
  (npMean a).bind fun ma =>
    (npMean b).bind fun mb =>
      fdiv ((a.zipWith (fun u v => (u - ma) * (v - mb)) b).sum) ((a.length : ℝ) - 1)

/-- Model of `compute_cross_axis_features` (featureExtractor.py lines 63-72). -/
def compute_cross_axis_features (x y z : List ℝ) : List (String × Option ℝ) :=
  [("corr_xy", pearson x y),
   ("corr_xz", pearson x z),
   ("corr_yz", pearson y z),
   ("cov_xy", sampleCov x y),
   ("cov_xz", sampleCov x z),
   ("cov_yz", sampleCov y z)]

/-! ## Advanced kinematic features (`compute_advanced_features`) -/

/-- Feature `svm`: `np.sum(magnitude) / len(magnitude)`. -/
def svmVal (x y z : List ℝ) : Option ℝ := fdiv (magOf x y z).sum (magOf x y z).length

/-- `np.clip(v, lo, hi)`. -/
def clipR (lo hi v : ℝ) : ℝ := min hi (max lo v)

/-- Per-axis tilt: `np.arccos(np.clip(a / magnitude, -1, 1)).mean()`.  A zero
magnitude sample gives `0/0 = NaN`, which `clip`, `arccos` and `mean` all
propagate. -/
def tiltVal (a m : List ℝ) : Option ℝ :=
  omean ((a.zipWith (fun ai mi => fdiv ai mi) m).map
    (Option.map fun r => Real.arccos (clipR (-1) 1 r)))

/-- `np.diff`: first differences. -/
def npDiff (l : List ℝ) : List ℝ := l.zipWith (fun a b => b - a) l.tail

/-- The per-sample jerk magnitude `sqrt(dx**2 + dy**2 + dz**2)`. -/
def jerkMag (x y z : List ℝ) : List ℝ :=
  map3 (fun a b c => Real.sqrt (a ^ 2 + b ^ 2 + c ^ 2)) (npDiff x) (npDiff y) (npDiff z)

/-- Feature `jerk_mean` (NaN on a single-sample window: mean of an empty
array). -/
def jerkMeanVal (x y z : List ℝ) : Option ℝ := npMean (jerkMag x y z)

/-- Feature `jerk_rms`. -/
def jerkRmsVal (x y z : List ℝ) : Option ℝ := npRms (jerkMag x y z)

/-- `np.trapz` with unit spacing. -/
def npTrapz (l : List ℝ) : ℝ := (l.zipWith (fun u v => (u + v) / 2) l.tail).sum

/-- Feature `magnitude_entropy`: entropy of the magnitude normalised by its
sum (`NaN` when the sum is zero). -/
def magnitudeEntropyVal (x y z : List ℝ) : Option ℝ :=
  oentropy ((magOf x y z).map fun v => fdiv v (magOf x y z).sum)

/-- Per-axis lag-1 autocorrelation: `np.corrcoef(a[:-1], a[1:])[0, 1]`. -/
def autocorrVal (a : List ℝ) : Option ℝ := pearson a.dropLast a.tail

/-- Model of `compute_advanced_features` (featureExtractor.py lines 74-101). -/
def compute_advanced_features (x y z : List ℝ) : List (String × Option ℝ) :=
  [("svm", svmVal x y z),
   ("tilt_x", tiltVal x (magOf x y z)),
   ("tilt_y", tiltVal y (magOf x y z)),
   ("tilt_z", tiltVal z (magOf x y z)),
   ("jerk_mean", jerkMeanVal x y z),
   ("jerk_rms", jerkRmsVal x y z),
   ("auc_x", some (npTrapz (x.map abs))),
   ("auc_y", some (npTrapz (y.map abs))),
   ("auc_z", some (npTrapz (z.map abs))),
   ("magnitude_entropy", magnitudeEntropyVal x y z),
   ("autocorr_x", autocorrVal x),
   ("autocorr_y", autocorrVal y),
   ("autocorr_z", autocorrVal z)]

/-! ## Windowed statistical features (`compute_windowed_features`) -/

/-- The regressor `np.arange(len(axis))` as reals. -/
def tIdx (n : ℕ) : List ℝ := (List.range n).map fun i => (i : ℝ)

/-- `scipy.stats.linregress(np.arange(n), a).slope`: the ratio of the centred
cross sum to the centred square sum of the index (NaN for `n = 1`, where both
are zero). -/
def linregressSlope (a : List ℝ) : Option ℝ :=
  let t := tIdx a.length
  (npMean t).bind fun mt =>
    (npMean a).bind fun ma =>
      fdiv ((t.zipWith (fun ti ai => (ti - mt) * (ai - ma)) a).sum)
        ((t.map fun ti => (ti - mt) ^ 2).sum)

/-- Inner plateau scan of scipy's `_local_maxima_1d`: starting at `j`, advance
while the value equals `v` and `j < imax`; the fuel passed by `lmLoop` always
suffices, so exhaustion returns the same index the Python loop stops at. -/
def lmPlateau {α : Type} [LinearOrder α] (a : ℕ → α) (imax : ℕ) (v : α) :
    ℕ → ℕ → ℕ
  | j, 0 => j
  | j, fuel + 1 =>
    if j < imax ∧ a j = v then lmPlateau a imax v (j + 1) fuel else j

/-- Outer loop of scipy's `_local_maxima_1d` (used by
`scipy.signal.find_peaks` with no filtering arguments): scan `i` from 1 to
`imax - 1`; on a strict ascent followed by a plateau followed by a strict
descent, record the plateau midpoint and resume after the plateau.  The fuel
bounds the number of iterations; `localMaxima` passes enough for the whole
scan. -/
def lmLoop {α : Type} [LinearOrder α] (a : ℕ → α) (imax : ℕ) :
    ℕ → ℕ → List ℕ
  | _, 0 => []
  | i, fuel + 1 =>
    if i < imax then
      if a (i - 1) < a i then
        if a (lmPlateau a imax (a i) (i + 1) (imax - (i + 1))) < a i then
          (i + (lmPlateau a imax (a i) (i + 1) (imax - (i + 1)) - 1)) / 2 ::
            lmLoop a imax (lmPlateau a imax (a i) (i + 1) (imax - (i + 1)) + 1) fuel
        else lmLoop a imax (i + 1) fuel
      else lmLoop a imax (i + 1) fuel
    else []

/-- Model of `scipy.signal.find_peaks(x)[0]`: the list of recorded peak
midpoints. -/
def localMaxima {α : Type} [LinearOrder α] [Inhabited α] (x : List α) : List ℕ :=
  lmLoop (fun i => x.getD i default) (x.length - 1) 1 x.length

/-- `len(find_peaks(axis)[0])` — the `num_peaks` feature. -/
def numPeaks {α : Type} [LinearOrder α] [Inhabited α] (x : List α) : ℕ :=
  (localMaxima x).length

/-- `len(find_peaks(-axis)[0])` — the `num_troughs` feature. -/
def numTroughs {α : Type} [LinearOrder α] [Neg α] [Inhabited α] (x : List α) : ℕ :=
  (localMaxima (x.map fun v => -v)).length

/-- `np.sum(np.abs(axis) > threshold)`. -/
def activityCount (th : ℝ) (a : List ℝ) : ℕ := a.countP fun v => decide (th < |v|)

/-- The four per-axis windowed features, in insertion order. -/
def windowedAxisFeatures (th : ℝ) (a : List ℝ) (nm : String) :
    List (String × Option ℝ) :=
  [("slope_" ++ nm, linregressSlope a),
   ("num_peaks_" ++ nm, some (numPeaks a : ℝ)),
   ("num_troughs_" ++ nm, some (numTroughs a : ℝ)),
   ("activity_count_" ++ nm, some (activityCount th a : ℝ))]

/-- Model of `compute_windowed_features` with the default `threshold=0.5`. -/
def compute_windowed_features (x y z : List ℝ) : List (String × Option ℝ) :=
  windowedAxisFeatures 0.5 x "x" ++ windowedAxisFeatures 0.5 y "y" ++
    windowedAxisFeatures 0.5 z "z"

/-! ## Feature Computer (`extract_features_from_window`) -/

/-- Model of `extract_features_from_window`: the six `update` calls build one
dict; all 101 keys are pairwise distinct, so the dict in insertion order is
the concatenation of the six group lists.  Only the frequency group can raise
(half-spectrum shorter than 5 bins); an exception discards the dict, so
matching on the frequency group first is semantically faithful. -/
def extract_features_from_window (x y z : List ℝ) :
    Except String (List (String × Option ℝ)) :=
  match compute_frequency_domain_features x y z with
  | Except.error e => Except.error e
  | Except.ok freq =>
    Except.ok (compute_time_domain_features x y z ++ freq ++
      compute_magnitude_features x y z ++ compute_cross_axis_features x y z ++
      compute_advanced_features x y z ++ compute_windowed_features x y z)

/-- The fixed 101-element feature-key set, in the deterministic insertion
order produced by `extract_features_from_window`. -/
def featureKeys : List String :=
  ["mean_x", "median_x", "std_x", "var_x", "min_x", "max_x", "range_x",
   "rms_x", "energy_x", "zero_crossing_rate_x", "skewness_x", "kurtosis_x",
   "peak_to_peak_x",
   "mean_y", "median_y", "std_y", "var_y", "min_y", "max_y", "range_y",
   "rms_y", "energy_y", "zero_crossing_rate_y", "skewness_y", "kurtosis_y",
   "peak_to_peak_y",
   "mean_z", "median_z", "std_z", "var_z", "min_z", "max_z", "range_z",
   "rms_z", "energy_z", "zero_crossing_rate_z", "skewness_z", "kurtosis_z",
   "peak_to_peak_z",
   "sma",
   "dominant_freq_x", "spectral_energy_x", "spectral_centroid_x",
   "spectral_entropy_x", "fft_coeff_x_0", "fft_coeff_x_1", "fft_coeff_x_2",
   "fft_coeff_x_3", "fft_coeff_x_4",
   "dominant_freq_y", "spectral_energy_y", "spectral_centroid_y",
   "spectral_entropy_y", "fft_coeff_y_0", "fft_coeff_y_1", "fft_coeff_y_2",
   "fft_coeff_y_3", "fft_coeff_y_4",
   "dominant_freq_z", "spectral_energy_z", "spectral_centroid_z",
   "spectral_entropy_z", "fft_coeff_z_0", "fft_coeff_z_1", "fft_coeff_z_2",
   "fft_coeff_z_3", "fft_coeff_z_4",
   "magnitude_mean", "magnitude_var", "magnitude_rms",
   "corr_xy", "corr_xz", "corr_yz", "cov_xy", "cov_xz", "cov_yz",
   "svm", "tilt_x", "tilt_y", "tilt_z", "jerk_mean", "jerk_rms",
   "auc_x", "auc_y", "auc_z", "magnitude_entropy",
   "autocorr_x", "autocorr_y", "autocorr_z",
   "slope_x", "num_peaks_x", "num_troughs_x", "activity_count_x",
   "slope_y", "num_peaks_y", "num_troughs_y", "activity_count_y",
   "slope_z", "num_peaks_z", "num_troughs_z", "activity_count_z"]

/-- The claim's own reading of the peak count (spec §4.3): the number of
interior indices whose value is strictly greater than both neighbours.  Kept
separate from the source-derived `numPeaks` so the two can be compared. -/
def specPeakCount {α : Type} [LinearOrder α] [Inhabited α] (x : List α) : ℕ :=
  (List.range' 1 (x.length - 1 - 1)).countP fun i =>
    decide (x.getD (i - 1) default < x.getD i default ∧
      x.getD (i + 1) default < x.getD i default)

/-! ## Window Extractor (`extract_features_from_dataframe`) -/

/-- Model of Python `range(a, b, s)` for a positive step (the only way the
code calls it: `range(0, len(df) - window_size + 1, window_size)`; `range`
raises for a zero step, and every claim assumes `window_size > 0`). -/
def pyRange (a b s : ℤ) : List ℤ :=
  if _h : 0 < s ∧ a < b then a :: pyRange (a + s) b s else []
termination_by (b - a).toNat
decreasing_by
  omega

/-- The window start offsets of `extract_features_from_dataframe`:
`range(0, len(df) - window_size + 1, window_size)`.  The subtraction is
integer subtraction, exactly as in Python (for `len(df) < window_size - 1`
the stop value is negative and the range is empty). -/
def windowStarts (n W : ℕ) : List ℕ :=
  (pyRange 0 ((n : ℤ) - W + 1) W).map Int.toNat

/-- Sequencing of per-window computations: the first exception aborts the
file, exactly like the Python `for` loop. -/
def exMapM {ε α β : Type} (f : α → Except ε β) : List α → Except ε (List β)
  | [] => Except.ok []
  | a :: t =>
    match f a with
    | Except.error e => Except.error e
    | Except.ok b =>
      match exMapM f t with
      | Except.error e => Except.error e
      | Except.ok bs => Except.ok (b :: bs)

/-- The list of windows the loop of `extract_features_from_dataframe` slices:
`df.iloc[start:start + window_size]` for each start offset. -/
def windowsOf {α : Type} (l : List α) (W : ℕ) : List (List α) :=
  (windowStarts l.length W).map fun s => (l.drop s).take W

/-- Model of `extract_features_from_dataframe` on the three axis columns of a
(rectangular) dataframe: one feature row per window, first exception aborts
the file.  `len(df)` is the common column length, read off `x`. -/
def extract_features_from_dataframe (x y z : List ℝ) (W : ℕ) :
    Except String (List (List (String × Option ℝ))) :=
  exMapM
    (fun s => extract_features_from_window ((x.drop s).take W) ((y.drop s).take W)
      ((z.drop s).take W))
    (windowStarts x.length W)

/-! ## Output tables (pandas `DataFrame` + `to_csv`) -/

/-- A written delimited table: the header row and the data rows. -/
structure OutTable where
  header : List String
  rows : List (List (Option ℝ))

/-- Model of `pd.DataFrame(feature_rows)` followed by `to_csv(index=False)`:
the columns are the keys of the first dict (all dicts share the same keys
here); an empty row list produces an empty frame with no columns, so the
written file has an empty header. -/
def dfOfRows (rows : List (List (String × Option ℝ))) : OutTable :=
  { header := (rows.head?.map fun r => r.map Prod.fst).getD []
    rows := rows.map fun r => r.map Prod.snd }

/-- The feature table written for one file with axis columns `x, y, z`. -/
def processFeatureFile (x y z : List ℝ) (W : ℕ) : Except String OutTable :=
  (extract_features_from_dataframe x y z W).map dfOfRows

/-! ## Batch Traversal Driver (`traverse_and_extract_features`) -/

/-- A parsed CSV file: column-oriented, as the code only ever reads whole
columns.  pandas guarantees all columns have the common row count. -/
def Table : Type := List (String × List ℝ)

/-- Column names, `df.columns`. -/
def columnsOf (t : Table) : List String := t.map Prod.fst

/-- Column lookup, `df[c].values`. -/
def getCol (t : Table) (c : String) : Option (List ℝ) :=
  (t.find? fun p => p.1 == c).map Prod.snd

/-- The required axis columns. -/
def requiredCols : List String := ["acc_x", "acc_y", "acc_z"]

/-- The required columns absent from a table. -/
def missingCols (t : Table) : List String :=
  requiredCols.filter fun c => !((columnsOf t).contains c)

/-- `all(col in df.columns for col in ['acc_x', 'acc_y', 'acc_z'])`. -/
def hasCols (t : Table) : Bool :=
  requiredCols.all fun c => (columnsOf t).contains c

/-- Model of `str.endswith` (kernel-reducible, unlike `String.endsWith`). -/
def strSuffix (suf s : String) : Bool := suf.data.isSuffixOf s.data

/-- `os.path.join` on path segments. -/
def pathJoin (parts : List String) : String := String.intercalate "/" parts

/-- One file found by `os.walk`: its directory path relative to the walk root
(any depth), its name, and the result of `pd.read_csv` — `Except.error`
models a raising read (unreadable file, malformed content). -/
structure SrcFile where
  rel : List String
  name : String
  content : Except String Table

/-- The full input path of a walked file. -/
def filePathF (root : String) (f : SrcFile) : String :=
  pathJoin (root :: f.rel ++ [f.name])

/-- A file written by the feature pipeline: output directory segments, file
name, table. -/
structure FOut where
  dir : List String
  fname : String
  table : OutTable

/-- The per-file body of `traverse_and_extract_features` (the `try`/`except`
around one csv file): the log lines printed and the file written, if any.
Every exception inside the body ends in the `except` branch — the function is
total and one file can only log and optionally write. -/
def processCsvFile (root : String) (outRoot : List String) (W : ℕ) (f : SrcFile) :
    List String × Option FOut :=
  let path := filePathF root f
  let p1 := "Processing " ++ path ++ "..."
  match f.content with
  | Except.error e => ([p1, "Error processing " ++ path ++ ": " ++ e], none)
  | Except.ok df =>
    if hasCols df then
      match extract_features_from_dataframe ((getCol df "acc_x").getD [])
          ((getCol df "acc_y").getD []) ((getCol df "acc_z").getD []) W with
      | Except.error e => ([p1, "Error processing " ++ path ++ ": " ++ e], none)
      | Except.ok rows =>
        ([p1, "Saved features to " ++
            pathJoin (outRoot ++ f.rel ++ ["features_" ++ f.name])],
         some ⟨outRoot ++ f.rel, "features_" ++ f.name, dfOfRows rows⟩)
    else ([p1, "Skipping " ++ path ++ " (missing acc_x, acc_y, acc_z columns)"], none)

/-- The files written by `traverse_and_extract_features` over a walked file
list (files not ending in `.csv` are skipped silently). -/
def traverseOutputs (root : String) (outRoot : List String) (W : ℕ)
    (files : List SrcFile) : List FOut :=
  files.flatMap fun f =>
    if strSuffix ".csv" f.name then ((processCsvFile root outRoot W f).2).toList else []

/-- The log lines printed by `traverse_and_extract_features`. -/
def traverseLogs (root : String) (outRoot : List String) (W : ℕ)
    (files : List SrcFile) : List String :=
  files.flatMap fun f =>
    if strSuffix ".csv" f.name then (processCsvFile root outRoot W f).1 else []

/-- Model of `traverse_and_extract_features`: written files and logs, in
traversal order. -/
def traverse_and_extract_features (root : String) (W : ℕ) (outRoot : List String)
    (files : List SrcFile) : List FOut × List String :=
  (traverseOutputs root outRoot W files, traverseLogs root outRoot W files)

/-! ## Signal Normalizer (`PreProcessor.py`) -/

/-- Accumulator of the leaky integrator: `prev` is the previous smoothed
value. -/
def leakyGo (lam prev : ℝ) : List ℝ → List ℝ
  | [] => []
  | v :: t => (lam * prev + (1 - lam) * v) :: leakyGo lam (lam * prev + (1 - lam) * v) t

/-- Model of `leaky_integrator` (PreProcessor.py lines 7-11):
`smoothed[0] = signal[0]`, `smoothed[i] = λ·smoothed[i-1] + (1-λ)·signal[i]`.
On an empty signal `signal.iloc[0]` raises `IndexError`, modelled by `none`. -/
def leaky_integrator (lam : ℝ) (l : List ℝ) : Option (List ℝ) :=
  match l with
  | [] => none
  | h :: t => some (h :: leakyGo lam h t)

/-- Plain real mean (used on the non-empty smoothed sequences). -/
def meanR (l : List ℝ) : ℝ := l.sum / l.length

/-- Population variance (scipy `zscore` default `ddof=0`). -/
def popVarR (l : List ℝ) : ℝ := meanR (l.map fun v => (v - meanR l) ^ 2)

/-- Population standard deviation. -/
def popStdR (l : List ℝ) : ℝ := Real.sqrt (popVarR l)

/-- Model of `scipy.stats.zscore`: `(v - mean) / std` elementwise over the
whole sequence.  For a constant sequence the std is zero and every numerator
is zero too, so every element is NaN. -/
def zscore (l : List ℝ) : List (Option ℝ) :=
  l.map fun v => fdiv (v - meanR l) (popStdR l)

/-- Comma-join of column names, as they appear inside a pandas `KeyError`
message. -/
def joinStrs : List String → String
  | [] => ""
  | [s] => s
  | s :: t => s ++ ", " ++ joinStrs t

/-- Model of `df[["acc_x", "acc_y", "acc_z"]]`: the three columns, or the
pandas `KeyError` naming the missing columns. -/
def selectCols (df : Table) : Except String (List ℝ × List ℝ × List ℝ) :=
  match getCol df "acc_x", getCol df "acc_y", getCol df "acc_z" with
  | some x, some y, some z => Except.ok (x, y, z)
  | _, _, _ => Except.error ("[" ++ joinStrs (missingCols df) ++ "] not in index")

/-- The written normalised table: exactly the three normalised axis columns. -/
structure PTable where
  xnorm : List (Option ℝ)
  ynorm : List (Option ℝ)
  znorm : List (Option ℝ)

/-- Model of `preprocess` (PreProcessor.py lines 13-28): select the axis
columns, smooth each with `λ = 0.9`, z-score each smoothed sequence, return
only the normalised columns.  A missing column raises `KeyError`; an empty
recording raises `IndexError` inside `leaky_integrator`. -/
def preprocess (df : Table) : Except String PTable :=
  match selectCols df with
  | Except.error e => Except.error e
  | Except.ok (x, y, z) =>
    match leaky_integrator 0.9 x with
    | none => Except.error "single positional indexer is out-of-bounds"
    | some sx =>
      match leaky_integrator 0.9 y with
      | none => Except.error "single positional indexer is out-of-bounds"
      | some sy =>
        match leaky_integrator 0.9 z with
        | none => Except.error "single positional indexer is out-of-bounds"
        | some sz => Except.ok ⟨zscore sx, zscore sy, zscore sz⟩

/-- Index of the last dot in a character list, if any. -/
def rfindDot : List Char → Option ℕ
  | [] => none
  | c :: t =>
    match rfindDot t with
    | some k => some (k + 1)
    | none => if c = '.' then some 0 else none

/-- Model of `os.path.splitext` for a bare file name: split at the last dot
unless every character before it is a dot (CPython skips a leading dot run). -/
def splitext (name : String) : String × String :=
  match rfindDot name.data with
  | none => (name, "")
  | some i =>
    if (name.data.take i).all fun c => c = '.' then (name, "")
    else (String.mk (name.data.take i), String.mk (name.data.drop i))

/-- The derived output name of the normalizer pipeline:
`f"{file_root}_preprocessed{ext}"`. -/
def newFilename (name : String) : String :=
  (splitext name).1 ++ "_preprocessed" ++ (splitext name).2

/-- A file inside one character folder. -/
structure PFile where
  name : String
  content : Except String Table

/-- One character folder: its name and its directly contained files
(`os.listdir` of the folder; entries that are not csv-named files are skipped
by the `endswith` test). -/
structure PDir where
  dname : String
  files : List PFile

/-- One entry of `os.listdir(BASE_DIR)`: a plain file (skipped by the
`isdir` test) or a first-level folder. -/
inductive PEntry where
  | file (name : String) (content : Except String Table)
  | dir (d : PDir)

/-- `BASE_DIR`. -/
def pBase : String := "Dataset"

/-- The output folder name, skipped during traversal. -/
def pOutSeg : String := "preprocessed_data"

/-- A file written by the normalizer pipeline. -/
structure POut where
  dir : List String
  fname : String
  table : PTable

/-- The per-file body of the PreProcessor loop (its `try`/`except`): log
lines and the file written, if any. -/
def processPFile (dn : String) (pf : PFile) : List String × Option POut :=
  let inPath := pathJoin [pBase, dn, pf.name]
  match pf.content with
  | Except.error e => (["[✗] Failed to process " ++ inPath ++ ": " ++ e], none)
  | Except.ok df =>
    match preprocess df with
    | Except.error e => (["[✗] Failed to process " ++ inPath ++ ": " ++ e], none)
    | Except.ok pt =>
      (["[✓] Processed: " ++ inPath ++ " -> " ++
          pathJoin [pBase, pOutSeg, dn, newFilename pf.name]],
       some ⟨[pBase, pOutSeg, dn], newFilename pf.name, pt⟩)

/-- Files written for one character folder. -/
def pDirOutputs (d : PDir) : List POut :=
  d.files.flatMap fun pf =>
    if strSuffix ".csv" pf.name then ((processPFile d.dname pf).2).toList else []

/-- Log lines for one character folder. -/
def pDirLogs (d : PDir) : List String :=
  d.files.flatMap fun pf =>
    if strSuffix ".csv" pf.name then (processPFile d.dname pf).1 else []

/-- Files written for one root entry: plain files are skipped by the `isdir`
test, the output folder is skipped by name. -/
def pEntryOutputs : PEntry → List POut
  | PEntry.file _ _ => []
  | PEntry.dir d => if d.dname = pOutSeg then [] else pDirOutputs d

/-- Log lines for one root entry. -/
def pEntryLogs : PEntry → List String
  | PEntry.file _ _ => []
  | PEntry.dir d => if d.dname = pOutSeg then [] else pDirLogs d

/-- All files written by the PreProcessor batch loop, in traversal order. -/
def preprocessOutputs (root : List PEntry) : List POut :=
  root.flatMap pEntryOutputs

/-- All log lines printed by the PreProcessor batch loop. -/
def preprocessLogs (root : List PEntry) : List String :=
  root.flatMap pEntryLogs

/-- The whole PreProcessor batch run over the listing of `BASE_DIR`. -/
def preprocessDriver (root : List PEntry) : List POut × List String :=
  (preprocessOutputs root, preprocessLogs root)

/-- The substring relation on strings (used to state that a log line
identifies a file path or a column name). -/
def strContains (sub s : String) : Prop := sub.data <:+: s.data

/-- A concrete parsed table that lacks the `acc_y` column (test input). -/
def wTable : Table := [("acc_x", [0]), ("acc_z", [0])]

/-- A walked csv file whose table lacks `acc_y` (test input). -/
def wFile : SrcFile := ⟨["w"], "t.csv", Except.ok wTable⟩

/-- A character-folder csv file whose table lacks `acc_y` (test input). -/
def wPFile : PFile := ⟨"t.csv", Except.ok wTable⟩

/-- A walked csv file whose read raises (test input). -/
def wBadFile : SrcFile := ⟨["w"], "bad.csv", Except.error "boom"⟩

/-- A character-folder csv file whose read raises (test input). -/
def wBadPFile : PFile := ⟨"bad.csv", Except.error "boom"⟩

/-- The eight magnitude-type features bundled for the axis-permutation
analysis: all are functions of the per-sample magnitude, the per-sample
absolute sum, or the jerk magnitude. -/
def permInvariant8 (x y z x2 y2 z2 : List ℝ) : Prop :=
  smaVal x y z = smaVal x2 y2 z2 ∧
  svmVal x y z = svmVal x2 y2 z2 ∧
  magnitudeMeanVal x y z = magnitudeMeanVal x2 y2 z2 ∧
  magnitudeVarVal x y z = magnitudeVarVal x2 y2 z2 ∧
  magnitudeRmsVal x y z = magnitudeRmsVal x2 y2 z2 ∧
  jerkMeanVal x y z = jerkMeanVal x2 y2 z2 ∧
  jerkRmsVal x y z = jerkRmsVal x2 y2 z2 ∧
  magnitudeEntropyVal x y z = magnitudeEntropyVal x2 y2 z2

/-! ## Helper lemmas: Python range and windowing -/

theorem pyRange_eq_cons (a b s : ℤ) (h : 0 < s ∧ a < b) :
    pyRange a b s = a :: pyRange (a + s) b s := by
  rw [pyRange]
  simp [h]

theorem pyRange_eq_nil (a b s : ℤ) (h : ¬(0 < s ∧ a < b)) : pyRange a b s = [] := by
  rw [pyRange]
  simp [h]

theorem pyRange_formula (s : ℤ) (hs : 0 < s) :
    ∀ (m : ℕ) (a b : ℤ), (b - a).toNat = m →
      pyRange a b s
        = (List.range ((m + (s.toNat - 1)) / s.toNat)).map fun i : ℕ => a + i * s := by
  intro m
  induction m using Nat.strong_induction_on with
  | _ m ih =>
    intro a b hm
    by_cases hab : a < b
    · rw [pyRange_eq_cons a b s ⟨hs, hab⟩]
      have hm1 : 1 ≤ m := by omega
      have hs1 : 1 ≤ s.toNat := by omega
      have hlt : (b - (a + s)).toNat < m := by omega
      rw [ih _ hlt (a + s) b rfl]
      have hcount : (m + (s.toNat - 1)) / s.toNat
          = ((b - (a + s)).toNat + (s.toNat - 1)) / s.toNat + 1 := by
        have h1 : m + (s.toNat - 1) = (m - 1) + s.toNat := by omega
        rw [h1, Nat.add_div_right _ (by omega)]
        congr 1
        rcases le_or_lt s.toNat m with hle | hlt2
        · have h2 : (b - (a + s)).toNat + (s.toNat - 1) = m - 1 := by omega
          rw [h2]
        · have h0 : (b - (a + s)).toNat = 0 := by omega
          rw [h0, Nat.div_eq_of_lt (by omega), Nat.div_eq_of_lt (by omega)]
      rw [hcount, List.range_succ_eq_map, List.map_cons, List.map_map]
      have hfun : ((fun i : ℕ => a + i * s) ∘ (· + 1)) = fun i : ℕ => (a + s) + i * s := by
        funext i
        simp only [Function.comp_apply]
        push_cast
        ring
      rw [hfun]
      simp
    · rw [pyRange_eq_nil a b s (by tauto)]
      have hm0 : m = 0 := by omega
      subst hm0
      rw [Nat.div_eq_of_lt (by omega)]
      simp

theorem windowStarts_eq (n W : ℕ) (hW : 0 < W) :
    windowStarts n W = (List.range (n / W)).map (· * W) := by
  unfold windowStarts
  rw [pyRange_formula W (by exact_mod_cast hW) (((n : ℤ) - W + 1) - 0).toNat 0
        ((n : ℤ) - W + 1) rfl]
  have hcount : ((((n : ℤ) - W + 1) - 0).toNat + ((W : ℤ).toNat - 1)) / (W : ℤ).toNat
      = n / W := by
    rcases le_or_lt W n with h | h
    · have h2 : (((n : ℤ) - W + 1) - 0).toNat = n - W + 1 := by omega
      rw [h2]
      have h3 : (W : ℤ).toNat = W := by omega
      rw [h3]
      congr 1
      omega
    · have h2 : (((n : ℤ) - W + 1) - 0).toNat = 0 := by omega
      have h3 : (W : ℤ).toNat = W := by omega
      rw [h2, h3, Nat.div_eq_of_lt (by omega), Nat.div_eq_of_lt (by omega)]
  rw [hcount, List.map_map]
  have hfun : (Int.toNat ∘ fun i : ℕ => (0 : ℤ) + i * W) = fun i : ℕ => i * W := by
    funext i
    simp only [Function.comp_apply]
    omega
  rw [hfun]

theorem windowsOf_eq {α : Type} (l : List α) (W : ℕ) (hW : 0 < W) :
    windowsOf l W = (List.range (l.length / W)).map fun k => (l.drop (k * W)).take W := by
  unfold windowsOf
  rw [windowStarts_eq _ _ hW, List.map_map]
  rfl

theorem flatten_chunks {α : Type} (W : ℕ) :
    ∀ (c : ℕ) (l : List α),
      ((List.range c).map fun k => (l.drop (k * W)).take W).flatten = l.take (c * W) := by
  intro c
  induction c with
  | zero => simp
  | succ c ih =>
    intro l
    rw [List.range_succ_eq_map, List.map_cons, List.map_map]
    have hcomp : ((fun k : ℕ => (l.drop (k * W)).take W) ∘ (· + 1))
        = fun k : ℕ => ((l.drop W).drop (k * W)).take W := by
      funext k
      simp only [Function.comp_apply, List.drop_drop]
      ring_nf
    rw [hcomp, List.flatten_cons, ih (l.drop W)]
    have h0 : (0 : ℕ) * W = 0 := by ring
    rw [h0, List.drop_zero, ← List.take_add]
    congr 1
    ring

theorem windowsOf_mem_length {α : Type} (l : List α) (W : ℕ) (hW : 0 < W) :
    ∀ w ∈ windowsOf l W, w.length = W := by
  rw [windowsOf_eq _ _ hW]
  intro w hw
  simp only [List.mem_map, List.mem_range] at hw
  obtain ⟨k, hk, rfl⟩ := hw
  have hmul : (k + 1) * W ≤ l.length := by
    have := (Nat.le_div_iff_mul_le hW).mp (Nat.succ_le_of_lt hk)
    exact this
  rw [Nat.succ_mul] at hmul
  simp only [List.length_take, List.length_drop]
  omega

/-! ## Claim C1 -/

/-- Claim C1: for an input of length `n` and a window size `W > 0`, the window
loop of `extract_features_from_dataframe` slices exactly `⌊n / W⌋` windows,
each of exactly `W` consecutive samples, non-overlapping, in order, starting
at offsets `0, W, 2W, …` (their concatenation is the first `⌊n/W⌋·W` samples,
so the trailing `n mod W` samples are in no window); for `n < W` zero windows
are produced and the result is `Except.ok []`, not an error. -/
theorem C1_windowing {α : Type} (l : List α) (W : ℕ) (hW : 0 < W) :
    windowsOf l W = (List.range (l.length / W)).map (fun k => (l.drop (k * W)).take W) ∧
    (windowsOf l W).length = l.length / W ∧
    (∀ w ∈ windowsOf l W, w.length = W) ∧
    (windowsOf l W).flatten = l.take (l.length / W * W) ∧
    (l.length < W → windowsOf l W = []) ∧
    (∀ x y z : List ℝ, x.length < W →
      extract_features_from_dataframe x y z W = Except.ok []) := by
  refine ⟨windowsOf_eq l W hW, ?_, windowsOf_mem_length l W hW, ?_, ?_, ?_⟩
  · rw [windowsOf_eq l W hW]
    simp
  · rw [windowsOf_eq l W hW, flatten_chunks]
  · intro hlt
    rw [windowsOf_eq l W hW, Nat.div_eq_of_lt hlt]
    simp
  · intro x y z hlt
    unfold extract_features_from_dataframe
    rw [windowStarts_eq _ _ hW, Nat.div_eq_of_lt hlt]
    simp
    rfl

/-- Witness for C1 at `l = [10, 20, 30, 40, 50]`, `W = 2`. -/
theorem C1_windowing_witness :
    0 < 2 ∧
    (windowsOf ([10, 20, 30, 40, 50] : List ℚ) 2
        = (List.range (([10, 20, 30, 40, 50] : List ℚ).length / 2)).map
            (fun k => (([10, 20, 30, 40, 50] : List ℚ).drop (k * 2)).take 2) ∧
      (windowsOf ([10, 20, 30, 40, 50] : List ℚ) 2).length
        = ([10, 20, 30, 40, 50] : List ℚ).length / 2 ∧
      (∀ w ∈ windowsOf ([10, 20, 30, 40, 50] : List ℚ) 2, w.length = 2) ∧
      (windowsOf ([10, 20, 30, 40, 50] : List ℚ) 2).flatten
        = ([10, 20, 30, 40, 50] : List ℚ).take
            (([10, 20, 30, 40, 50] : List ℚ).length / 2 * 2) ∧
      (([10, 20, 30, 40, 50] : List ℚ).length < 2 →
        windowsOf ([10, 20, 30, 40, 50] : List ℚ) 2 = []) ∧
      (∀ x y z : List ℝ, x.length < 2 →
        extract_features_from_dataframe x y z 2 = Except.ok [])) :=
  ⟨by decide, C1_windowing ([10, 20, 30, 40, 50] : List ℚ) 2 (by decide)⟩

/-! ## Claim C2 -/

theorem leakyGo_length (lam : ℝ) : ∀ (t : List ℝ) (p : ℝ), (leakyGo lam p t).length = t.length := by
  intro t
  induction t with
  | nil => intro p; rfl
  | cons v rest ih =>
    intro p
    simp only [leakyGo, List.length_cons, ih]

theorem leakyGo_getD (lam : ℝ) :
    ∀ (t : List ℝ) (p : ℝ) (j : ℕ), j < t.length →
      (leakyGo lam p t).getD j 0
        = lam * ((p :: leakyGo lam p t).getD j 0) + (1 - lam) * t.getD j 0 := by
  intro t
  induction t with
  | nil => intro p j hj; simp at hj
  | cons v rest ih =>
    intro p j hj
    cases j with
    | zero => simp [leakyGo]
    | succ j =>
      have hj2 : j < rest.length := by simpa using hj
      simpa only [leakyGo, List.getD_cons_succ] using
        ih (lam * p + (1 - lam) * v) j hj2

theorem leakyGo_one : ∀ (t : List ℝ) (p : ℝ), leakyGo 1 p t = List.replicate t.length p := by
  intro t
  induction t with
  | nil => intro p; rfl
  | cons v rest ih =>
    intro p
    have hc : (1 : ℝ) * p + (1 - 1) * v = p := by ring
    simp only [leakyGo, hc, ih, List.length_cons, List.replicate_succ]

/-- Claim C2: on any non-empty signal `l`, `leaky_integrator` succeeds and
returns a sequence of the same length with `s[0] = l[0]` and
`s[i] = λ·s[i-1] + (1-λ)·l[i]` for `1 ≤ i < n`; for `λ = 1` the output is
`l[0]` repeated `n` times. -/
theorem C2_leaky_integrator (lam : ℝ) (l : List ℝ) (hne : l ≠ []) :
    ∃ s, leaky_integrator lam l = some s ∧ s.length = l.length ∧
      s.head? = l.head? ∧
      (∀ i, 1 ≤ i → i < l.length →
        s.getD i 0 = lam * s.getD (i - 1) 0 + (1 - lam) * l.getD i 0) ∧
      (lam = 1 → s = List.replicate l.length (l.headD 0)) := by
  obtain ⟨h, t, rfl⟩ := List.exists_cons_of_ne_nil hne
  refine ⟨h :: leakyGo lam h t, rfl, by simp [leakyGo_length], rfl, ?_, ?_⟩
  · intro i h1 h2
    obtain ⟨j, rfl⟩ : ∃ j, i = j + 1 := ⟨i - 1, by omega⟩
    have hj : j < t.length := by simpa using h2
    have := leakyGo_getD lam t h j hj
    simpa only [List.getD_cons_succ, Nat.add_sub_cancel] using this
  · intro hlam
    subst hlam
    simp [leakyGo_one, List.replicate_succ]

/-- Witness for C2 at `λ = 0.9`, `l = [1, 2]`. -/
theorem C2_leaky_integrator_witness :
    ([1, 2] : List ℝ) ≠ [] ∧
    (∃ s, leaky_integrator 0.9 ([1, 2] : List ℝ) = some s ∧
      s.length = ([1, 2] : List ℝ).length ∧
      s.head? = ([1, 2] : List ℝ).head? ∧
      (∀ i, 1 ≤ i → i < ([1, 2] : List ℝ).length →
        s.getD i 0 = 0.9 * s.getD (i - 1) 0 + (1 - 0.9) * ([1, 2] : List ℝ).getD i 0) ∧
      (0.9 = (1 : ℝ) → s = List.replicate ([1, 2] : List ℝ).length (([1, 2] : List ℝ).headD 0))) :=
  ⟨by simp, C2_leaky_integrator 0.9 [1, 2] (by simp)⟩

/-! ## Helper lemmas: sums, means, variances -/

theorem sum_map_sub (l : List ℝ) (c : ℝ) :
    (l.map fun v => v - c).sum = l.sum - l.length * c := by
  induction l with
  | nil => simp
  | cons a t ih =>
    simp only [List.map_cons, List.sum_cons, ih, List.length_cons]
    push_cast
    ring

theorem sum_map_div (l : List ℝ) (f : ℝ → ℝ) (c : ℝ) :
    (l.map fun v => f v / c).sum = (l.map f).sum / c := by
  induction l with
  | nil => simp
  | cons a t ih =>
    simp only [List.map_cons, List.sum_cons, ih]
    ring

theorem sum_of_const (l : List ℝ) (c : ℝ) (h : ∀ v ∈ l, v = c) :
    l.sum = l.length * c := by
  induction l with
  | nil => simp
  | cons a t ih =>
    have ha : a = c := h a (by simp)
    have ht : ∀ v ∈ t, v = c := fun v hv => h v (by simp [hv])
    simp only [List.sum_cons, ih ht, ha, List.length_cons]
    push_cast
    ring

theorem sum_sq_nonneg (l : List ℝ) (f : ℝ → ℝ) : 0 ≤ (l.map fun v => f v ^ 2).sum := by
  induction l with
  | nil => simp
  | cons a t ih =>
    simp only [List.map_cons, List.sum_cons]
    exact add_nonneg (sq_nonneg _) ih

theorem sum_sq_eq_zero_iff (l : List ℝ) (f : ℝ → ℝ) :
    (l.map fun v => f v ^ 2).sum = 0 ↔ ∀ v ∈ l, f v = 0 := by
  induction l with
  | nil => simp
  | cons a t ih =>
    simp only [List.map_cons, List.sum_cons, List.mem_cons]
    constructor
    · intro h
      have h1 : f a ^ 2 = 0 ∧ (t.map fun v => f v ^ 2).sum = 0 := by
        constructor <;> nlinarith [sum_sq_nonneg t f, sq_nonneg (f a)]
      refine fun v hv => ?_
      rcases hv with rfl | hv
      · exact pow_eq_zero_iff (n := 2) (by norm_num) |>.mp h1.1
      · exact ih.mp h1.2 v hv
    · intro h
      have h1 : f a = 0 := h a (Or.inl rfl)
      have h2 : (t.map fun v => f v ^ 2).sum = 0 := ih.mpr fun v hv => h v (Or.inr hv)
      simp [h1, h2]

theorem meanR_of_ne_nil (l : List ℝ) (hne : l ≠ []) : l.sum = l.length * meanR l := by
  have hn : (l.length : ℝ) ≠ 0 := by
    simp only [ne_eq, Nat.cast_eq_zero, List.length_eq_zero]
    exact hne
  unfold meanR
  field_simp

theorem meanR_eq (l : List ℝ) : meanR l = l.sum / l.length := rfl

theorem popStdR_eq (l : List ℝ) : popStdR l = Real.sqrt (popVarR l) := rfl

theorem popVarR_eq (l : List ℝ) :
    popVarR l = (l.map fun v => (v - meanR l) ^ 2).sum / l.length := by
  simp only [popVarR, meanR, List.length_map]

theorem popVarR_nonneg (l : List ℝ) : 0 ≤ popVarR l := by
  rw [popVarR_eq]
  exact div_nonneg (sum_sq_nonneg l _) (by positivity)

theorem popVarR_pos (l : List ℝ) (hne : l ≠ [])
    (h : ∃ a ∈ l, ∃ b ∈ l, a ≠ b) : 0 < popVarR l := by
  obtain ⟨a, ha, b, hb, hab⟩ := h
  have h0 : popVarR l ≠ 0 := by
    intro heq
    rw [popVarR_eq] at heq
    have hn : (l.length : ℝ) ≠ 0 := by
      simpa [List.length_eq_zero] using hne
    have hS : (l.map fun v => (v - meanR l) ^ 2).sum = 0 := by
      rcases (div_eq_zero_iff).mp heq with hS | hN
      · exact hS
      · exact absurd hN hn
    have hall := (sum_sq_eq_zero_iff l fun v => v - meanR l).mp hS
    have hA : a = meanR l := by have := hall a ha; linarith
    have hB : b = meanR l := by have := hall b hb; linarith
    exact hab (hA.trans hB.symm)
  exact lt_of_le_of_ne (popVarR_nonneg l) (Ne.symm h0)

theorem popStdR_pos (l : List ℝ) (hne : l ≠ [])
    (h : ∃ a ∈ l, ∃ b ∈ l, a ≠ b) : 0 < popStdR l :=
  Real.sqrt_pos.mpr (popVarR_pos l hne h)

theorem popStdR_sq (l : List ℝ) : popStdR l ^ 2 = popVarR l :=
  Real.sq_sqrt (popVarR_nonneg l)

/-! ## Claim C6 -/

/-- Claim C6: the standardisation step of the Signal Normalizer is applied to
the smoothed sequence `s` over the whole recording.  If `s` is non-constant,
`zscore s` is everywhere defined and has sample mean exactly 0 and population
standard deviation exactly 1 (the floating "≈" of the spec is exact in the
real model); if `s` is constant, every output element is NaN with no
substitute value. -/
theorem C6_zscore_normalization (lam : ℝ) (x s : List ℝ)
    (hs : leaky_integrator lam x = some s) :
    ((∃ a ∈ s, ∃ b ∈ s, a ≠ b) →
      zscore s = s.map (fun v => some ((v - meanR s) / popStdR s)) ∧
      meanR (s.map fun v => (v - meanR s) / popStdR s) = 0 ∧
      popStdR (s.map fun v => (v - meanR s) / popStdR s) = 1) ∧
    ((∀ a ∈ s, ∀ b ∈ s, a = b) → zscore s = List.replicate s.length none) := by
  have sne : s ≠ [] := by
    cases x with
    | nil => simp [leaky_integrator] at hs
    | cons h t =>
      simp only [leaky_integrator, Option.some_inj] at hs
      rw [← hs]
      simp
  have hnR : (s.length : ℝ) ≠ 0 := by
    simpa [List.length_eq_zero] using sne
  constructor
  · intro hvary
    have hσ : 0 < popStdR s := popStdR_pos s sne hvary
    have hσne : popStdR s ≠ 0 := ne_of_gt hσ
    have hmap : zscore s = s.map fun v => some ((v - meanR s) / popStdR s) := by
      simp only [zscore, fdiv, if_neg hσne]
    have hsum0 : (s.map fun v => (v - meanR s) / popStdR s).sum = 0 := by
      rw [sum_map_div s (fun v => v - meanR s) (popStdR s), sum_map_sub,
        meanR_of_ne_nil s sne]
      simp
    have hmean : meanR (s.map fun v => (v - meanR s) / popStdR s) = 0 := by
      rw [meanR_eq (s.map fun v => (v - meanR s) / popStdR s), hsum0]
      simp
    refine ⟨hmap, hmean, ?_⟩
    have hvar1 : popVarR (s.map fun v => (v - meanR s) / popStdR s) = 1 := by
      rw [popVarR_eq, hmean, List.map_map, List.length_map]
      have hfun : ((fun w : ℝ => (w - 0) ^ 2) ∘ fun v => (v - meanR s) / popStdR s)
          = fun v => (v - meanR s) ^ 2 / popStdR s ^ 2 := by
        funext v
        simp only [Function.comp_apply, sub_zero, div_pow]
      rw [hfun, sum_map_div s (fun v => (v - meanR s) ^ 2) (popStdR s ^ 2)]
      have hvs : (s.map fun v => (v - meanR s) ^ 2).sum = popVarR s * s.length := by
        rw [popVarR_eq]
        field_simp
      rw [hvs, ← popStdR_sq]
      field_simp
    rw [popStdR_eq (s.map fun v => (v - meanR s) / popStdR s), hvar1, Real.sqrt_one]
  · intro hconst
    obtain ⟨h0, t, rfl⟩ := List.exists_cons_of_ne_nil sne
    have hall : ∀ v ∈ h0 :: t, v = h0 := fun v hv => hconst v hv h0 (by simp)
    have hμ : meanR (h0 :: t) = h0 := by
      unfold meanR
      rw [sum_of_const _ h0 hall]
      field_simp
    have hvar0 : popVarR (h0 :: t) = 0 := by
      rw [popVarR_eq]
      have : ((h0 :: t).map fun v => (v - meanR (h0 :: t)) ^ 2).sum = 0 := by
        refine (sum_sq_eq_zero_iff _ _).mpr fun v hv => ?_
        rw [hall v hv, hμ]
        ring
      rw [this]
      simp
    have hσ0 : popStdR (h0 :: t) = 0 := by
      unfold popStdR
      rw [hvar0, Real.sqrt_zero]
    simp only [zscore, fdiv, hσ0, if_pos rfl]
    simp [List.map_const', List.replicate_succ]

/-- Witness for C6 at `λ = 0.5`, `x = [0, 2]`, smoothed sequence `[0, 1]`. -/
theorem C6_zscore_normalization_witness :
    leaky_integrator 0.5 ([0, 2] : List ℝ) = some [0, 1] ∧
    (((∃ a ∈ ([0, 1] : List ℝ), ∃ b ∈ ([0, 1] : List ℝ), a ≠ b) →
      zscore [0, 1] = ([0, 1] : List ℝ).map
          (fun v => some ((v - meanR [0, 1]) / popStdR [0, 1])) ∧
      meanR (([0, 1] : List ℝ).map fun v => (v - meanR [0, 1]) / popStdR [0, 1]) = 0 ∧
      popStdR (([0, 1] : List ℝ).map fun v => (v - meanR [0, 1]) / popStdR [0, 1]) = 1) ∧
    ((∀ a ∈ ([0, 1] : List ℝ), ∀ b ∈ ([0, 1] : List ℝ), a = b) →
      zscore [0, 1] = List.replicate ([0, 1] : List ℝ).length none)) := by
  have hs : leaky_integrator 0.5 ([0, 2] : List ℝ) = some [0, 1] := by
    norm_num [leaky_integrator, leakyGo]
  exact ⟨hs, C6_zscore_normalization 0.5 [0, 2] [0, 1] hs⟩

/-! ## Claim C10 -/

theorem map3_comm12 {f : ℝ → ℝ → ℝ → ℝ} (hf : ∀ a b c, f a b c = f b a c) :
    ∀ x y z : List ℝ, map3 f x y z = map3 f y x z := by
  intro x
  induction x with
  | nil => intro y z; cases y <;> cases z <;> rfl
  | cons a t ih =>
    intro y z
    cases y with
    | nil => cases z <;> rfl
    | cons b ty =>
      cases z with
      | nil => rfl
      | cons c tz =>
        simp only [map3]
        exact congrArg₂ _ (hf a b c) (ih ty tz)

theorem map3_comm23 {f : ℝ → ℝ → ℝ → ℝ} (hf : ∀ a b c, f a b c = f a c b) :
    ∀ x y z : List ℝ, map3 f x y z = map3 f x z y := by
  intro x
  induction x with
  | nil => intro y z; cases y <;> cases z <;> rfl
  | cons a t ih =>
    intro y z
    cases y with
    | nil => cases z <;> rfl
    | cons b ty =>
      cases z with
      | nil => rfl
      | cons c tz =>
        simp only [map3]
        exact congrArg₂ _ (hf a b c) (ih ty tz)

theorem magOf_comm12 (x y z : List ℝ) : magOf x y z = magOf y x z :=
  map3_comm12 (fun a b c => by congr 1; ring) x y z

theorem magOf_comm23 (x y z : List ℝ) : magOf x y z = magOf x z y :=
  map3_comm23 (fun a b c => by congr 1; ring) x y z

theorem absSum_comm12 (x y z : List ℝ) : absSum x y z = absSum y x z :=
  map3_comm12 (fun a b c => by ring) x y z

theorem absSum_comm23 (x y z : List ℝ) : absSum x y z = absSum x z y :=
  map3_comm23 (fun a b c => by ring) x y z

theorem jerkMag_comm12 (x y z : List ℝ) : jerkMag x y z = jerkMag y x z :=
  map3_comm12 (fun a b c => by congr 1; ring) (npDiff x) (npDiff y) (npDiff z)

theorem jerkMag_comm23 (x y z : List ℝ) : jerkMag x y z = jerkMag x z y :=
  map3_comm23 (fun a b c => by congr 1; ring) (npDiff x) (npDiff y) (npDiff z)

theorem permInv_of (x y z x2 y2 z2 : List ℝ)
    (hm : magOf x y z = magOf x2 y2 z2)
    (ha : absSum x y z = absSum x2 y2 z2)
    (hj : jerkMag x y z = jerkMag x2 y2 z2) :
    permInvariant8 x y z x2 y2 z2 := by
  unfold permInvariant8 smaVal svmVal magnitudeMeanVal magnitudeVarVal
    magnitudeRmsVal jerkMeanVal jerkRmsVal magnitudeEntropyVal
  rw [hm, ha, hj]
  simp

/-- Claim C10: every feature defined through the per-sample vector magnitude
or the summed absolute axes — `sma`, `svm`, `magnitude_mean`,
`magnitude_var`, `magnitude_rms`, `jerk_mean`, `jerk_rms`,
`magnitude_entropy` — is unchanged under every permutation of the three axis
sequences. -/
theorem C10_axis_permutation (x y z : List ℝ) :
    permInvariant8 x y z y x z ∧
    permInvariant8 x y z x z y ∧
    permInvariant8 x y z y z x ∧
    permInvariant8 x y z z x y ∧
    permInvariant8 x y z z y x := by
  have m12 := magOf_comm12
  have m23 := magOf_comm23
  have a12 := absSum_comm12
  have a23 := absSum_comm23
  have j12 := jerkMag_comm12
  have j23 := jerkMag_comm23
  refine ⟨permInv_of _ _ _ _ _ _ (m12 x y z) (a12 x y z) (j12 x y z),
    permInv_of _ _ _ _ _ _ (m23 x y z) (a23 x y z) (j23 x y z), ?_, ?_, ?_⟩
  · exact permInv_of _ _ _ _ _ _ ((m12 x y z).trans (m23 y x z))
      ((a12 x y z).trans (a23 y x z)) ((j12 x y z).trans (j23 y x z))
  · exact permInv_of _ _ _ _ _ _ ((m23 x y z).trans (m12 x z y))
      ((a23 x y z).trans (a12 x z y)) ((j23 x y z).trans (j12 x z y))
  · exact permInv_of _ _ _ _ _ _
      (((m23 x y z).trans (m12 x z y)).trans (m23 z x y))
      (((a23 x y z).trans (a12 x z y)).trans (a23 z x y))
      (((j23 x y z).trans (j12 x z y)).trans (j23 z x y))

/-! ## Helper lemmas: the find_peaks loop -/

theorem lmPlateau_of_stop {α : Type} [LinearOrder α] (a : ℕ → α) (imax : ℕ) (v : α)
    (j : ℕ) (h : ¬(j < imax ∧ a j = v)) : ∀ fuel, lmPlateau a imax v j fuel = j := by
  intro fuel
  cases fuel with
  | zero => rfl
  | succ fuel => simp only [lmPlateau]; rw [if_neg h]

theorem lmPlateau_ge {α : Type} [LinearOrder α] (a : ℕ → α) (imax : ℕ) (v : α) :
    ∀ (fuel j : ℕ), j ≤ lmPlateau a imax v j fuel := by
  intro fuel
  induction fuel with
  | zero => intro j; exact le_refl j
  | succ fuel ih =>
    intro j
    simp only [lmPlateau]
    by_cases h : j < imax ∧ a j = v
    · rw [if_pos h]
      exact le_trans (Nat.le_succ j) (ih (j + 1))
    · rw [if_neg h]

theorem lmPlateau_le {α : Type} [LinearOrder α] (a : ℕ → α) (imax : ℕ) (v : α) :
    ∀ (fuel j : ℕ), j ≤ imax → lmPlateau a imax v j fuel ≤ imax := by
  intro fuel
  induction fuel with
  | zero => intro j h; exact h
  | succ fuel ih =>
    intro j h
    simp only [lmPlateau]
    by_cases hc : j < imax ∧ a j = v
    · rw [if_pos hc]
      exact ih (j + 1) hc.1
    · rw [if_neg hc]
      exact h

theorem lmLoop_mem {α : Type} [LinearOrder α] (a : ℕ → α) (imax : ℕ) :
    ∀ (fuel i : ℕ), 1 ≤ i → ∀ p ∈ lmLoop a imax i fuel, 1 ≤ p ∧ p < imax := by
  intro fuel
  induction fuel with
  | zero => intro i h1 p hp; simp [lmLoop] at hp
  | succ fuel ih =>
    intro i h1 p hp
    simp only [lmLoop] at hp
    by_cases hi : i < imax
    · rw [if_pos hi] at hp
      by_cases hasc : a (i - 1) < a i
      · rw [if_pos hasc] at hp
        have hge : i + 1 ≤ lmPlateau a imax (a i) (i + 1) (imax - (i + 1)) :=
          lmPlateau_ge a imax (a i) (imax - (i + 1)) (i + 1)
        have hle : lmPlateau a imax (a i) (i + 1) (imax - (i + 1)) ≤ imax :=
          lmPlateau_le a imax (a i) (imax - (i + 1)) (i + 1) (by omega)
        by_cases hdesc : a (lmPlateau a imax (a i) (i + 1) (imax - (i + 1))) < a i
        · rw [if_pos hdesc] at hp
          rcases List.mem_cons.mp hp with rfl | hp2
          · omega
          · exact ih _ (by omega) p hp2
        · rw [if_neg hdesc] at hp
          exact ih (i + 1) (by omega) p hp
      · rw [if_neg hasc] at hp
        exact ih (i + 1) (by omega) p hp
    · rw [if_neg hi] at hp
      simp at hp

/-- The strict-local-maximum count over the index interval `[i, imax)`,
matching `specPeakCount` for `i = 1`, `imax = n - 1`. -/
def specCntFrom {α : Type} [LinearOrder α] (a : ℕ → α) (imax i : ℕ) : ℕ :=
  (List.range' i (imax - i)).countP fun k =>
    decide (a (k - 1) < a k ∧ a (k + 1) < a k)

theorem specCntFrom_step {α : Type} [LinearOrder α] (a : ℕ → α) (imax i : ℕ)
    (hi : i < imax) :
    specCntFrom a imax i
      = specCntFrom a imax (i + 1)
        + if a (i - 1) < a i ∧ a (i + 1) < a i then 1 else 0 := by
  unfold specCntFrom
  have hsplit : imax - i = (imax - (i + 1)) + 1 := by omega
  rw [hsplit, List.range'_succ, List.countP_cons]
  by_cases h : a (i - 1) < a i ∧ a (i + 1) < a i
  · simp [h]
  · simp [h]

theorem specCntFrom_stop {α : Type} [LinearOrder α] (a : ℕ → α) (imax i : ℕ)
    (hi : imax ≤ i) : specCntFrom a imax i = 0 := by
  unfold specCntFrom
  have h0 : imax - i = 0 := by omega
  rw [h0]
  rfl

theorem lmLoop_eq_specCnt {α : Type} [LinearOrder α] (a : ℕ → α) (imax : ℕ)
    (H : ∀ k, k + 1 ≤ imax → a k ≠ a (k + 1)) :
    ∀ (fuel i : ℕ), 1 ≤ i → imax ≤ i + fuel →
      (lmLoop a imax i fuel).length = specCntFrom a imax i := by
  intro fuel
  induction fuel with
  | zero =>
    intro i h1 h2
    rw [specCntFrom_stop a imax i (by omega)]
    rfl
  | succ fuel ih =>
    intro i h1 h2
    simp only [lmLoop]
    by_cases hi : i < imax
    · rw [if_pos hi]
      have hjeq : lmPlateau a imax (a i) (i + 1) (imax - (i + 1)) = i + 1 :=
        lmPlateau_of_stop a imax (a i) (i + 1)
          (fun hc => (H i (by omega)) hc.2.symm) _
      rw [hjeq]
      by_cases hasc : a (i - 1) < a i
      · rw [if_pos hasc]
        by_cases hdesc : a (i + 1) < a i
        · rw [if_pos hdesc]
          simp only [List.length_cons]
          rw [ih (i + 1 + 1) (by omega) (by omega)]
          have e1 : specCntFrom a imax i
              = specCntFrom a imax (i + 1) + 1 := by
            rw [specCntFrom_step a imax i hi]
            simp [hasc, hdesc]
          have e2 : specCntFrom a imax (i + 1) = specCntFrom a imax (i + 1 + 1) := by
            by_cases hi1 : i + 1 < imax
            · rw [specCntFrom_step a imax (i + 1) hi1]
              have hfalse : ¬(a (i + 1 - 1) < a (i + 1) ∧ a (i + 1 + 1) < a (i + 1)) := by
                simp only [Nat.add_sub_cancel]
                intro hcon
                exact absurd hcon.1 (not_lt.mpr (le_of_lt hdesc))
              rw [if_neg hfalse]
              exact Nat.add_zero _
            · rw [specCntFrom_stop a imax (i + 1) (by omega),
                specCntFrom_stop a imax (i + 1 + 1) (by omega)]
          rw [e1, e2]
        · rw [if_neg hdesc]
          rw [ih (i + 1) (by omega) (by omega)]
          rw [specCntFrom_step a imax i hi]
          have hfalse : ¬(a (i - 1) < a i ∧ a (i + 1) < a i) := fun hcon => hdesc hcon.2
          simp [hfalse]
      · rw [if_neg hasc]
        rw [ih (i + 1) (by omega) (by omega)]
        rw [specCntFrom_step a imax i hi]
        have hfalse : ¬(a (i - 1) < a i ∧ a (i + 1) < a i) := fun hcon => hasc hcon.1
        simp [hfalse]
    · rw [if_neg hi]
      rw [specCntFrom_stop a imax i (by omega)]
      rfl

theorem lmLoop_inc_nil {α : Type} [LinearOrder α] (a : ℕ → α) (imax : ℕ)
    (hinc : ∀ k, k + 1 ≤ imax → a k < a (k + 1)) :
    ∀ (fuel i : ℕ), 1 ≤ i → lmLoop a imax i fuel = [] := by
  intro fuel
  induction fuel with
  | zero => intro i h1; rfl
  | succ fuel ih =>
    intro i h1
    simp only [lmLoop]
    by_cases hi : i < imax
    · rw [if_pos hi]
      have hjeq : lmPlateau a imax (a i) (i + 1) (imax - (i + 1)) = i + 1 :=
        lmPlateau_of_stop a imax (a i) (i + 1)
          (fun hc => (hinc i (by omega)).ne' hc.2) _
      rw [hjeq]
      have hnd : ¬(a (i + 1) < a i) := not_lt.mpr (le_of_lt (hinc i (by omega)))
      by_cases hasc : a (i - 1) < a i
      · rw [if_pos hasc, if_neg hnd]
        exact ih (i + 1) (by omega)
      · rw [if_neg hasc]
        exact ih (i + 1) (by omega)
    · rw [if_neg hi]

theorem lmLoop_dec_nil {α : Type} [LinearOrder α] (a : ℕ → α) (imax : ℕ)
    (hdec : ∀ k, k + 1 ≤ imax → a (k + 1) < a k) :
    ∀ (fuel i : ℕ), 1 ≤ i → lmLoop a imax i fuel = [] := by
  intro fuel
  induction fuel with
  | zero => intro i h1; rfl
  | succ fuel ih =>
    intro i h1
    simp only [lmLoop]
    by_cases hi : i < imax
    · rw [if_pos hi]
      have hstep : a i < a (i - 1) := by
        have h := hdec (i - 1) (by omega)
        have hsimp : i - 1 + 1 = i := by omega
        rwa [hsimp] at h
      have hasc : ¬(a (i - 1) < a i) := not_lt.mpr (le_of_lt hstep)
      rw [if_neg hasc]
      exact ih (i + 1) (by omega)
    · rw [if_neg hi]

theorem getD_map_neg {α : Type} [Neg α] [Inhabited α] (x : List α) (k : ℕ)
    (hk : k < x.length) :
    (x.map fun v => -v).getD k default = -(x.getD k default) := by
  rw [List.getD_eq_getElem?_getD, List.getElem?_map, List.getD_eq_getElem?_getD,
    List.getElem?_eq_getElem hk]
  rfl

theorem specPeakCount_eq_cntFrom {α : Type} [LinearOrder α] [Inhabited α]
    (x : List α) :
    specPeakCount x = specCntFrom (fun i => x.getD i default) (x.length - 1) 1 := by
  unfold specPeakCount specCntFrom
  rfl

theorem numPeaks_eq_spec_of_distinct {α : Type} [LinearOrder α] [Inhabited α]
    (x : List α)
    (hdist : ∀ i ∈ List.range (x.length - 1),
      x.getD i default ≠ x.getD (i + 1) default) :
    numPeaks x = specPeakCount x := by
  have H : ∀ k, k + 1 ≤ x.length - 1 →
      (fun i => x.getD i default) k ≠ (fun i => x.getD i default) (k + 1) := by
    intro k hk
    exact hdist k (List.mem_range.mpr (by omega))
  have hmain := lmLoop_eq_specCnt (fun i => x.getD i default) (x.length - 1) H
    x.length 1 (by omega) (by omega)
  rw [specPeakCount_eq_cntFrom]
  exact hmain

theorem numPeaks_zero_of_inc {α : Type} [LinearOrder α] [Inhabited α] (x : List α)
    (hinc : ∀ i ∈ List.range (x.length - 1),
      x.getD i default < x.getD (i + 1) default) :
    numPeaks x = 0 := by
  unfold numPeaks localMaxima
  rw [lmLoop_inc_nil (fun i => x.getD i default) (x.length - 1)
    (fun k hk => hinc k (List.mem_range.mpr (by omega))) x.length 1 (by omega)]
  rfl

theorem numPeaks_zero_of_dec {α : Type} [LinearOrder α] [Inhabited α] (x : List α)
    (hdec : ∀ i ∈ List.range (x.length - 1),
      x.getD (i + 1) default < x.getD i default) :
    numPeaks x = 0 := by
  unfold numPeaks localMaxima
  rw [lmLoop_dec_nil (fun i => x.getD i default) (x.length - 1)
    (fun k hk => hdec k (List.mem_range.mpr (by omega))) x.length 1 (by omega)]
  rfl

/-! ## Claim C8 (amended) -/

/-- Claim C8, amended: `scipy.signal.find_peaks` counts a plateau of equal
values with strictly smaller neighbours as one peak, so the strict-neighbour
reading of the spec only holds on windows whose adjacent samples are pairwise
distinct.  Under that hypothesis, `num_peaks_a` is exactly the number of
interior strict local maxima and `num_troughs_a` the same count for the
negated axis; recorded peak positions are always interior (endpoints are
never counted, with no distinctness needed); and on strictly monotonic ramps
both counts are 0. -/
theorem C8_peak_counts {α : Type} [LinearOrderedField α] [Inhabited α] (x : List α)
    (hdist : ∀ i ∈ List.range (x.length - 1),
      x.getD i default ≠ x.getD (i + 1) default) :
    numPeaks x = specPeakCount x ∧
    numTroughs x = specPeakCount (x.map fun v => -v) ∧
    (∀ p ∈ localMaxima x, 1 ≤ p ∧ p + 1 < x.length) ∧
    ((∀ i ∈ List.range (x.length - 1),
        x.getD i default < x.getD (i + 1) default) →
      numPeaks x = 0 ∧ numTroughs x = 0) ∧
    ((∀ i ∈ List.range (x.length - 1),
        x.getD (i + 1) default < x.getD i default) →
      numPeaks x = 0 ∧ numTroughs x = 0) := by
  have hlen : (x.map fun v => -v).length = x.length := List.length_map x _
  refine ⟨numPeaks_eq_spec_of_distinct x hdist, ?_, ?_, ?_, ?_⟩
  · show numPeaks (x.map fun v => -v) = specPeakCount (x.map fun v => -v)
    apply numPeaks_eq_spec_of_distinct
    intro i hi
    rw [hlen] at hi
    have hi2 : i < x.length - 1 := List.mem_range.mp hi
    rw [getD_map_neg x i (by omega), getD_map_neg x (i + 1) (by omega)]
    exact fun hn => hdist i (List.mem_range.mpr (by omega)) (neg_inj.mp hn)
  · intro p hp
    have hm := lmLoop_mem (fun i => x.getD i default) (x.length - 1) x.length 1
      (by omega) p hp
    omega
  · intro hinc
    refine ⟨numPeaks_zero_of_inc x hinc, ?_⟩
    show numPeaks (x.map fun v => -v) = 0
    apply numPeaks_zero_of_dec
    intro i hi
    rw [hlen] at hi
    have hi2 : i < x.length - 1 := List.mem_range.mp hi
    rw [getD_map_neg x i (by omega), getD_map_neg x (i + 1) (by omega)]
    exact neg_lt_neg (hinc i (List.mem_range.mpr (by omega)))
  · intro hdec
    refine ⟨numPeaks_zero_of_dec x hdec, ?_⟩
    show numPeaks (x.map fun v => -v) = 0
    apply numPeaks_zero_of_inc
    intro i hi
    rw [hlen] at hi
    have hi2 : i < x.length - 1 := List.mem_range.mp hi
    rw [getD_map_neg x i (by omega), getD_map_neg x (i + 1) (by omega)]
    exact neg_lt_neg (hdec i (List.mem_range.mpr (by omega)))

/-- Counterexample to the original claim C8: on the window `[0, 1, 1, 0]` no
interior sample is strictly greater than both neighbours, yet `find_peaks`
records the plateau `1, 1` as one peak, so `num_peaks` is 1, not 0. -/
theorem C8_peak_counts_counterexample :
    specPeakCount ([0, 1, 1, 0] : List ℚ) = 0 ∧
    numPeaks ([0, 1, 1, 0] : List ℚ) = 1 := by
  decide

/-- Witness for C8 at the adjacent-distinct window `[0, 2, 1, 3]`. -/
theorem C8_peak_counts_witness :
    (∀ i ∈ List.range (([0, 2, 1, 3] : List ℚ).length - 1),
      ([0, 2, 1, 3] : List ℚ).getD i default
        ≠ ([0, 2, 1, 3] : List ℚ).getD (i + 1) default) ∧
    (numPeaks ([0, 2, 1, 3] : List ℚ) = specPeakCount ([0, 2, 1, 3] : List ℚ) ∧
    numTroughs ([0, 2, 1, 3] : List ℚ)
      = specPeakCount (([0, 2, 1, 3] : List ℚ).map fun v => -v) ∧
    (∀ p ∈ localMaxima ([0, 2, 1, 3] : List ℚ),
      1 ≤ p ∧ p + 1 < ([0, 2, 1, 3] : List ℚ).length) ∧
    ((∀ i ∈ List.range (([0, 2, 1, 3] : List ℚ).length - 1),
        ([0, 2, 1, 3] : List ℚ).getD i default
          < ([0, 2, 1, 3] : List ℚ).getD (i + 1) default) →
      numPeaks ([0, 2, 1, 3] : List ℚ) = 0 ∧ numTroughs ([0, 2, 1, 3] : List ℚ) = 0) ∧
    ((∀ i ∈ List.range (([0, 2, 1, 3] : List ℚ).length - 1),
        ([0, 2, 1, 3] : List ℚ).getD (i + 1) default
          < ([0, 2, 1, 3] : List ℚ).getD i default) →
      numPeaks ([0, 2, 1, 3] : List ℚ) = 0 ∧ numTroughs ([0, 2, 1, 3] : List ℚ) = 0)) :=
  ⟨by decide, C8_peak_counts ([0, 2, 1, 3] : List ℚ) (by decide)⟩

/-! ## Helper lemmas: feature map structure -/

theorem dftMags_length (l : List ℝ) : (dftMags l).length = l.length / 2 := by
  simp [dftMags]

theorem npArgmax_of_ne_nil (l : List ℝ) (h : l ≠ []) : ∃ k, npArgmax l = some k := by
  cases l with
  | nil => exact absurd rfl h
  | cons v t => exact ⟨argmaxGo v 0 1 t, rfl⟩

theorem freqAxisFeatures_ok (rate : ℝ) (a : List ℝ) (nm : String) (k : ℕ)
    (hk : npArgmax (dftMags a) = some k) (h5 : 5 ≤ (dftMags a).length) :
    freqAxisFeatures rate a nm = Except.ok
      [("dominant_freq_" ++ nm, some ((fftFreqs rate a.length).getD k 0)),
       ("spectral_energy_" ++ nm, fdiv ((dftMags a).map fun v => v ^ 2).sum a.length),
       ("spectral_centroid_" ++ nm,
         fdiv ((fftFreqs rate a.length).zipWith (· * ·) (dftMags a)).sum (dftMags a).sum),
       ("spectral_entropy_" ++ nm,
         oentropy ((dftMags a).map fun v => fdiv v (dftMags a).sum)),
       ("fft_coeff_" ++ nm ++ "_0", some ((dftMags a).getD 0 0)),
       ("fft_coeff_" ++ nm ++ "_1", some ((dftMags a).getD 1 0)),
       ("fft_coeff_" ++ nm ++ "_2", some ((dftMags a).getD 2 0)),
       ("fft_coeff_" ++ nm ++ "_3", some ((dftMags a).getD 3 0)),
       ("fft_coeff_" ++ nm ++ "_4", some ((dftMags a).getD 4 0))] := by
  simp only [freqAxisFeatures, hk]
  rw [if_pos h5]

/-- Structure of a successful `extract_features_from_window` run on a window
of length at least 10: the keys are the fixed set, and the raw values of the
features tracked by the degeneracy claims sit at their keys. -/
theorem extract_features_spec (x y z : List ℝ) (W : ℕ) (hx : x.length = W)
    (hy : y.length = W) (hz : z.length = W) (hW : 10 ≤ W) :
    ∃ fs, extract_features_from_window x y z = Except.ok fs ∧
      fs.map Prod.fst = featureKeys ∧
      ("skewness_x", scipySkew x) ∈ fs ∧
      ("corr_xy", pearson x y) ∈ fs ∧
      ("tilt_x", tiltVal x (magOf x y z)) ∈ fs ∧
      ("spectral_centroid_x",
        fdiv ((fftFreqs 100 x.length).zipWith (· * ·) (dftMags x)).sum
          (dftMags x).sum) ∈ fs ∧
      ("magnitude_entropy", magnitudeEntropyVal x y z) ∈ fs := by
  have h5x : 5 ≤ (dftMags x).length := by rw [dftMags_length, hx]; omega
  have h5y : 5 ≤ (dftMags y).length := by rw [dftMags_length, hy]; omega
  have h5z : 5 ≤ (dftMags z).length := by rw [dftMags_length, hz]; omega
  have hnex : dftMags x ≠ [] := by
    intro hcon
    rw [hcon] at h5x
    simp at h5x
  have hney : dftMags y ≠ [] := by
    intro hcon
    rw [hcon] at h5y
    simp at h5y
  have hnez : dftMags z ≠ [] := by
    intro hcon
    rw [hcon] at h5z
    simp at h5z
  obtain ⟨kx, hkx⟩ := npArgmax_of_ne_nil _ hnex
  obtain ⟨ky, hky⟩ := npArgmax_of_ne_nil _ hney
  obtain ⟨kz, hkz⟩ := npArgmax_of_ne_nil _ hnez
  have hfx := freqAxisFeatures_ok 100 x "x" kx hkx h5x
  have hfy := freqAxisFeatures_ok 100 y "y" ky hky h5y
  have hfz := freqAxisFeatures_ok 100 z "z" kz hkz h5z
  have hfreq : compute_frequency_domain_features x y z = Except.ok
      ([("dominant_freq_" ++ "x", some ((fftFreqs 100 x.length).getD kx 0)),
        ("spectral_energy_" ++ "x", fdiv ((dftMags x).map fun v => v ^ 2).sum x.length),
        ("spectral_centroid_" ++ "x",
          fdiv ((fftFreqs 100 x.length).zipWith (· * ·) (dftMags x)).sum (dftMags x).sum),
        ("spectral_entropy_" ++ "x",
          oentropy ((dftMags x).map fun v => fdiv v (dftMags x).sum)),
        ("fft_coeff_" ++ "x" ++ "_0", some ((dftMags x).getD 0 0)),
        ("fft_coeff_" ++ "x" ++ "_1", some ((dftMags x).getD 1 0)),
        ("fft_coeff_" ++ "x" ++ "_2", some ((dftMags x).getD 2 0)),
        ("fft_coeff_" ++ "x" ++ "_3", some ((dftMags x).getD 3 0)),
        ("fft_coeff_" ++ "x" ++ "_4", some ((dftMags x).getD 4 0))] ++
       [("dominant_freq_" ++ "y", some ((fftFreqs 100 y.length).getD ky 0)),
        ("spectral_energy_" ++ "y", fdiv ((dftMags y).map fun v => v ^ 2).sum y.length),
        ("spectral_centroid_" ++ "y",
          fdiv ((fftFreqs 100 y.length).zipWith (· * ·) (dftMags y)).sum (dftMags y).sum),
        ("spectral_entropy_" ++ "y",
          oentropy ((dftMags y).map fun v => fdiv v (dftMags y).sum)),
        ("fft_coeff_" ++ "y" ++ "_0", some ((dftMags y).getD 0 0)),
        ("fft_coeff_" ++ "y" ++ "_1", some ((dftMags y).getD 1 0)),
        ("fft_coeff_" ++ "y" ++ "_2", some ((dftMags y).getD 2 0)),
        ("fft_coeff_" ++ "y" ++ "_3", some ((dftMags y).getD 3 0)),
        ("fft_coeff_" ++ "y" ++ "_4", some ((dftMags y).getD 4 0))] ++
       [("dominant_freq_" ++ "z", some ((fftFreqs 100 z.length).getD kz 0)),
        ("spectral_energy_" ++ "z", fdiv ((dftMags z).map fun v => v ^ 2).sum z.length),
        ("spectral_centroid_" ++ "z",
          fdiv ((fftFreqs 100 z.length).zipWith (· * ·) (dftMags z)).sum (dftMags z).sum),
        ("spectral_entropy_" ++ "z",
          oentropy ((dftMags z).map fun v => fdiv v (dftMags z).sum)),
        ("fft_coeff_" ++ "z" ++ "_0", some ((dftMags z).getD 0 0)),
        ("fft_coeff_" ++ "z" ++ "_1", some ((dftMags z).getD 1 0)),
        ("fft_coeff_" ++ "z" ++ "_2", some ((dftMags z).getD 2 0)),
        ("fft_coeff_" ++ "z" ++ "_3", some ((dftMags z).getD 3 0)),
        ("fft_coeff_" ++ "z" ++ "_4", some ((dftMags z).getD 4 0))]) := by
    simp only [compute_frequency_domain_features, hfx, hfy, hfz]
    rfl
  unfold extract_features_from_window
  rw [hfreq]
  refine ⟨_, rfl, ?_, ?_, ?_, ?_, ?_, ?_⟩
  · rfl
  · exact List.mem_append_left _
      (List.mem_append_left _
        (List.mem_append_left _
          (List.mem_append_left _
            (List.mem_append_left _
              (List.mem_append_left _
                (List.mem_append_left _
                  (List.mem_append_left _
                    (List.Mem.tail _ (List.Mem.tail _ (List.Mem.tail _ (List.Mem.tail _
                      (List.Mem.tail _ (List.Mem.tail _ (List.Mem.tail _ (List.Mem.tail _
                        (List.Mem.tail _ (List.Mem.tail _ (List.Mem.head _))))))))))))))))))
  · exact List.mem_append_left _
      (List.mem_append_left _
        (List.mem_append_right _ (List.Mem.head _)))
  · exact List.mem_append_left _
      (List.mem_append_right _ (List.Mem.tail _ (List.Mem.head _)))
  · exact List.mem_append_left _
      (List.mem_append_left _
        (List.mem_append_left _
          (List.mem_append_left _
            (List.mem_append_right _
              (List.mem_append_left _
                (List.mem_append_left _
                  (List.Mem.tail _ (List.Mem.tail _ (List.Mem.head _)))))))))
  · exact List.mem_append_left _
      (List.mem_append_right _
        (List.Mem.tail _ (List.Mem.tail _ (List.Mem.tail _ (List.Mem.tail _
          (List.Mem.tail _ (List.Mem.tail _ (List.Mem.tail _ (List.Mem.tail _
            (List.Mem.tail _ (List.Mem.head _)))))))))))

/-! ## Helper lemmas: degenerate feature values -/

theorem getD_replicate_self {α : Type} (n j : ℕ) (c : α) :
    (List.replicate n c).getD j c = c := by
  rw [List.getD_eq_getElem?_getD, List.getElem?_replicate]
  split <;> rfl

theorem npMean_replicate (n : ℕ) (c : ℝ) (h : n ≠ 0) :
    npMean (List.replicate n c) = some c := by
  unfold npMean fdiv
  rw [List.sum_replicate, List.length_replicate]
  have hn : ((n : ℝ)) ≠ 0 := Nat.cast_ne_zero.mpr h
  rw [if_neg hn]
  congr 1
  rw [nsmul_eq_mul]
  field_simp

theorem npMean_of_ne_nil (b : List ℝ) (hb : b ≠ []) : ∃ m, npMean b = some m := by
  unfold npMean fdiv
  have hn : ((b.length : ℝ)) ≠ 0 := by
    simpa [List.length_eq_zero] using hb
  rw [if_neg hn]
  exact ⟨_, rfl⟩

theorem centralMoment_replicate (n : ℕ) (c : ℝ) (h : n ≠ 0) (k : ℕ) (hk : k ≠ 0) :
    centralMoment (List.replicate n c) k = some 0 := by
  unfold centralMoment
  rw [npMean_replicate n c h, Option.some_bind, List.map_replicate]
  have hz : (c - c) ^ k = (0 : ℝ) := by
    rw [sub_self]
    exact zero_pow hk
  rw [hz, npMean_replicate n 0 h]

theorem scipySkew_replicate (n : ℕ) (c : ℝ) (h : n ≠ 0) :
    scipySkew (List.replicate n c) = none := by
  unfold scipySkew
  rw [centralMoment_replicate n c h 2 (by norm_num),
    centralMoment_replicate n c h 3 (by norm_num), Option.some_bind, Option.some_bind]
  rw [Real.zero_rpow (by norm_num : ((3 : ℝ) / 2) ≠ 0)]
  simp [fdiv]

theorem pearson_replicate_left (n : ℕ) (c : ℝ) (b : List ℝ) (hn : n ≠ 0)
    (hb : b ≠ []) : pearson (List.replicate n c) b = none := by
  unfold pearson
  obtain ⟨mb, hmb⟩ := npMean_of_ne_nil b hb
  rw [npMean_replicate n c hn, Option.some_bind, hmb, Option.some_bind,
    List.map_replicate]
  have hz : (c - c) ^ 2 = (0 : ℝ) := by ring
  rw [hz, List.sum_replicate, smul_zero, Real.sqrt_zero, zero_mul]
  simp [fdiv]

theorem map3_replicate {α β γ δ : Type} (f : α → β → γ → δ) (n : ℕ) (a : α) (b : β)
    (c : γ) :
    map3 f (List.replicate n a) (List.replicate n b) (List.replicate n c)
      = List.replicate n (f a b c) := by
  induction n with
  | zero => rfl
  | succ n ih => simp [List.replicate_succ, map3, ih]

theorem magOf_zero (n : ℕ) :
    magOf (List.replicate n 0) (List.replicate n 0) (List.replicate n 0)
      = List.replicate n 0 := by
  unfold magOf
  rw [map3_replicate]
  congr 1
  rw [show (0 : ℝ) ^ 2 + 0 ^ 2 + 0 ^ 2 = 0 by ring, Real.sqrt_zero]

theorem mapM_id_replicate_none (n : ℕ) (h : n ≠ 0) :
    (List.replicate n (none : Option ℝ)).mapM id = none := by
  obtain ⟨m, rfl⟩ : ∃ m, n = m + 1 := ⟨n - 1, by omega⟩
  rw [List.replicate_succ, List.mapM_cons]
  rfl

theorem tiltVal_zero (n : ℕ) (h : n ≠ 0) :
    tiltVal (List.replicate n 0) (List.replicate n 0) = none := by
  unfold tiltVal omean
  rw [List.zipWith_replicate, Nat.min_self]
  have h00 : fdiv 0 0 = none := by simp [fdiv]
  rw [h00, List.map_replicate]
  have hmn : Option.map (fun r => Real.arccos (clipR (-1) 1 r)) none
      = (none : Option ℝ) := rfl
  rw [hmn, mapM_id_replicate_none n h]
  rfl

theorem dftCoeff_zero (n k : ℕ) : dftCoeff (List.replicate n (0 : ℝ)) k = 0 := by
  unfold dftCoeff
  refine List.sum_eq_zero fun t ht => ?_
  obtain ⟨j, _, rfl⟩ := List.mem_map.mp ht
  rw [getD_replicate_self]
  simp

theorem dftMags_zero (n : ℕ) :
    dftMags (List.replicate n (0 : ℝ)) = List.replicate (n / 2) 0 := by
  unfold dftMags
  rw [List.length_replicate]
  rw [show (fun k : ℕ => Complex.abs (dftCoeff (List.replicate n (0 : ℝ)) k))
      = fun _ : ℕ => (0 : ℝ) from funext fun k => by rw [dftCoeff_zero]; simp]
  rw [List.map_const', List.length_range]

theorem centroid_zero (n : ℕ) :
    fdiv ((fftFreqs 100 (List.replicate n (0 : ℝ)).length).zipWith (· * ·)
      (dftMags (List.replicate n 0))).sum (dftMags (List.replicate n 0)).sum
      = none := by
  rw [dftMags_zero]
  have hs : (List.replicate (n / 2) (0 : ℝ)).sum = 0 := by
    rw [List.sum_replicate, smul_zero]
  unfold fdiv
  rw [if_pos hs]

theorem magnitudeEntropyVal_zero (n : ℕ) (h : n ≠ 0) :
    magnitudeEntropyVal (List.replicate n 0) (List.replicate n 0)
      (List.replicate n 0) = none := by
  unfold magnitudeEntropyVal oentropy
  rw [magOf_zero, List.sum_replicate, smul_zero, List.map_replicate]
  have h00 : fdiv (0 : ℝ) 0 = none := by simp [fdiv]
  rw [h00, mapM_id_replicate_none n h]
  rfl

/-! ## Claim C3 (amended) -/

/-- Claim C3, amended: for every window of length at least 10 the Feature
Computer succeeds (no exception) and returns a mapping with exactly the fixed
feature-key set, every key present; on degenerate inputs no default value is
substituted — the affected feature values are NaN (`none`): skewness and
cross-correlation on a constant window, tilt, spectral centroid and magnitude
entropy on an all-zero window.  (For windows shorter than 10 samples the code
raises `IndexError` while reading `fft_vals[4]`, so the original unqualified
claim fails; see the counterexample.) -/
theorem C3_feature_totality (x y z : List ℝ) (W : ℕ) (hx : x.length = W)
    (hy : y.length = W) (hz : z.length = W) (hW : 10 ≤ W) :
    ∃ fs, extract_features_from_window x y z = Except.ok fs ∧
      fs.map Prod.fst = featureKeys ∧
      ((∃ c, x = List.replicate W c) →
        ("skewness_x", (none : Option ℝ)) ∈ fs ∧
        ("corr_xy", (none : Option ℝ)) ∈ fs) ∧
      ((x = List.replicate W 0 ∧ y = List.replicate W 0 ∧ z = List.replicate W 0) →
        ("tilt_x", (none : Option ℝ)) ∈ fs ∧
        ("spectral_centroid_x", (none : Option ℝ)) ∈ fs ∧
        ("magnitude_entropy", (none : Option ℝ)) ∈ fs) := by
  obtain ⟨fs, hok, hkeys, hskew, hcorr, htilt, hcent, hent⟩ :=
    extract_features_spec x y z W hx hy hz hW
  have hW0 : W ≠ 0 := by omega
  refine ⟨fs, hok, hkeys, ?_, ?_⟩
  · rintro ⟨c, rfl⟩
    constructor
    · rwa [scipySkew_replicate W c hW0] at hskew
    · have hbne : y ≠ [] := by
        intro hcon
        rw [hcon] at hy
        simp at hy
        omega
      rwa [pearson_replicate_left W c y hW0 hbne] at hcorr
  · rintro ⟨rfl, rfl, rfl⟩
    refine ⟨?_, ?_, ?_⟩
    · rw [magOf_zero] at htilt
      rwa [tiltVal_zero W hW0] at htilt
    · rwa [centroid_zero W] at hcent
    · rwa [magnitudeEntropyVal_zero W hW0] at hent

/-- Counterexample to the original claim C3: on a window of length 5 the
Feature Computer raises (half-spectrum has 2 bins, the loop reads
`fft_vals[2]`) instead of returning the feature mapping. -/
theorem C3_feature_totality_counterexample :
    (extract_features_from_window [1, 2, 3, 4, 5] [1, 2, 3, 4, 5]
      [1, 2, 3, 4, 5]).toOption = none := by
  have h2 : (dftMags ([1, 2, 3, 4, 5] : List ℝ)).length = 2 := by
    rw [dftMags_length]
    rfl
  have hne : dftMags ([1, 2, 3, 4, 5] : List ℝ) ≠ [] := by
    intro hcon
    rw [hcon] at h2
    simp at h2
  obtain ⟨k, hk⟩ := npArgmax_of_ne_nil _ hne
  have herr : ∃ e, freqAxisFeatures 100 ([1, 2, 3, 4, 5] : List ℝ) "x"
      = Except.error e := by
    simp only [freqAxisFeatures, hk]
    rw [if_neg (by rw [h2]; norm_num)]
    exact ⟨_, rfl⟩
  obtain ⟨e, he⟩ := herr
  have hfc : compute_frequency_domain_features ([1, 2, 3, 4, 5] : List ℝ)
      [1, 2, 3, 4, 5] [1, 2, 3, 4, 5] = Except.error e := by
    simp only [compute_frequency_domain_features, he]
    rfl
  simp only [extract_features_from_window, hfc]
  rfl

/-- Witness for C3 on the all-zero window of length 10. -/
theorem C3_feature_totality_witness :
    (List.replicate 10 (0 : ℝ)).length = 10 ∧ 10 ≤ 10 ∧
    (∃ fs, extract_features_from_window (List.replicate 10 (0 : ℝ))
        (List.replicate 10 0) (List.replicate 10 0) = Except.ok fs ∧
      fs.map Prod.fst = featureKeys ∧
      ((∃ c, List.replicate 10 (0 : ℝ) = List.replicate 10 c) →
        ("skewness_x", (none : Option ℝ)) ∈ fs ∧
        ("corr_xy", (none : Option ℝ)) ∈ fs) ∧
      ((List.replicate 10 (0 : ℝ) = List.replicate 10 0 ∧
          List.replicate 10 (0 : ℝ) = List.replicate 10 0 ∧
          List.replicate 10 (0 : ℝ) = List.replicate 10 0) →
        ("tilt_x", (none : Option ℝ)) ∈ fs ∧
        ("spectral_centroid_x", (none : Option ℝ)) ∈ fs ∧
        ("magnitude_entropy", (none : Option ℝ)) ∈ fs)) :=
  ⟨List.length_replicate 10 0, le_refl 10,
    C3_feature_totality (List.replicate 10 0) (List.replicate 10 0)
      (List.replicate 10 0) 10 (List.length_replicate 10 0)
      (List.length_replicate 10 0) (List.length_replicate 10 0) (le_refl 10)⟩

/-! ## Claim C7 (amended) -/

theorem exMapM_ok {ε α β : Type} (f : α → Except ε β) (g : α → β) (l : List α)
    (h : ∀ a ∈ l, f a = Except.ok (g a)) : exMapM f l = Except.ok (l.map g) := by
  induction l with
  | nil => rfl
  | cons a t ih =>
    simp only [exMapM]
    rw [h a (List.mem_cons_self a t), ih fun a2 ha2 => h a2 (List.mem_cons_of_mem a ha2)]
    rfl

theorem windowStarts_mem_length (l : List ℝ) (W : ℕ) (hW : 0 < W) :
    ∀ s ∈ windowStarts l.length W, ((l.drop s).take W).length = W := by
  intro s hs
  have hmem : (l.drop s).take W ∈ windowsOf l W := by
    unfold windowsOf
    exact List.mem_map_of_mem _ hs
  exact windowsOf_mem_length l W hW _ hmem

theorem dfOfRows_header (rows : List (List (String × Option ℝ))) :
    (dfOfRows rows).header = (rows.head?.map fun r => r.map Prod.fst).getD [] := rfl

theorem dfOfRows_rows (rows : List (List (String × Option ℝ))) :
    (dfOfRows rows).rows = rows.map fun r => r.map Prod.snd := rfl

/-- Claim C7, amended: for a processed file with `n` valid rows and window
size `W ≥ 10`, the written table has exactly `⌊n / W⌋` data rows; when at
least one window exists the header row is the full fixed feature-key set in
its deterministic order; but when `n < W` the written table is empty with an
empty header (pandas builds the frame from an empty row list, so no columns
are written — the original claim's "zero rows but the complete header" does
not hold; see the counterexample). -/
theorem C7_output_table (x y z : List ℝ) (n W : ℕ) (hx : x.length = n)
    (hy : y.length = n) (hz : z.length = n) (hW : 10 ≤ W) :
    ∃ t, processFeatureFile x y z W = Except.ok t ∧
      t.rows.length = n / W ∧
      (W ≤ n → t.header = featureKeys) ∧
      (n < W → t.header = [] ∧ t.rows = []) := by
  have hW0 : 0 < W := by omega
  set g : ℕ → List (String × Option ℝ) := fun s =>
    (extract_features_from_window ((x.drop s).take W) ((y.drop s).take W)
      ((z.drop s).take W)).toOption.getD [] with hg
  have hok : ∀ s ∈ windowStarts x.length W,
      extract_features_from_window ((x.drop s).take W) ((y.drop s).take W)
        ((z.drop s).take W) = Except.ok (g s) := by
    intro s hs
    have hsy : s ∈ windowStarts y.length W := by rw [hy, ← hx]; exact hs
    have hsz : s ∈ windowStarts z.length W := by rw [hz, ← hx]; exact hs
    have hlx : ((x.drop s).take W).length = W := windowStarts_mem_length x W hW0 s hs
    have hly : ((y.drop s).take W).length = W := windowStarts_mem_length y W hW0 s hsy
    have hlz : ((z.drop s).take W).length = W := windowStarts_mem_length z W hW0 s hsz
    obtain ⟨fs, hfs, -, -, -, -, -, -⟩ :=
      extract_features_spec _ _ _ W hlx hly hlz hW
    have hgs : g s = fs := by
      rw [hg]
      simp only []
      rw [hfs]
      rfl
    rw [hgs]
    exact hfs
  have hext : extract_features_from_dataframe x y z W
      = Except.ok ((windowStarts x.length W).map g) := by
    unfold extract_features_from_dataframe
    exact exMapM_ok _ g _ hok
  have hpf : processFeatureFile x y z W
      = Except.ok (dfOfRows ((windowStarts x.length W).map g)) := by
    unfold processFeatureFile
    rw [hext]
    rfl
  refine ⟨_, hpf, ?_, ?_, ?_⟩
  · rw [dfOfRows_rows]
    rw [windowStarts_eq x.length W hW0, hx]
    simp
  · intro hWn
    have hc : n / W = (n / W - 1) + 1 := by
      have h1 : 1 ≤ n / W := (Nat.one_le_div_iff hW0).mpr hWn
      omega
    rw [dfOfRows_header, windowStarts_eq x.length W hW0, hx, hc,
      List.range_succ_eq_map]
    simp only [List.map_cons, List.head?_cons, Option.map_some', Option.getD_some]
    have h0 : (0 : ℕ) * W = 0 := by ring
    rw [h0]
    have hlx : ((x.drop 0).take W).length = W := by
      simp only [List.drop_zero, List.length_take]
      omega
    have hly : ((y.drop 0).take W).length = W := by
      simp only [List.drop_zero, List.length_take]
      omega
    have hlz : ((z.drop 0).take W).length = W := by
      simp only [List.drop_zero, List.length_take]
      omega
    obtain ⟨fs, hfs, hkeys, -, -, -, -, -⟩ :=
      extract_features_spec _ _ _ W hlx hly hlz hW
    have hgs : g 0 = fs := by
      rw [hg]
      simp only []
      rw [hfs]
      rfl
    rw [hgs, hkeys]
  · intro hnW
    have hzero : n / W = 0 := Nat.div_eq_of_lt hnW
    rw [dfOfRows_header, dfOfRows_rows, windowStarts_eq x.length W hW0, hx, hzero]
    simp

/-- Counterexample to the original claim C7: a 50-row file with
`window_size = 100` produces an output table with zero rows and an empty
header — not the complete fixed key set. -/
theorem C7_output_table_counterexample :
    processFeatureFile (List.replicate 50 0) (List.replicate 50 0)
      (List.replicate 50 0) 100 = Except.ok ⟨[], []⟩ ∧ featureKeys ≠ [] := by
  constructor
  · unfold processFeatureFile extract_features_from_dataframe windowStarts
    rw [List.length_replicate]
    push_cast
    rw [pyRange_eq_nil 0 (-49 : ℤ) 100 (by decide)]
    rfl
  · simp [featureKeys]

/-- Witness for C7 on an empty file with `W = 10`. -/
theorem C7_output_table_witness :
    ([] : List ℝ).length = 0 ∧ 10 ≤ 10 ∧
    (∃ t, processFeatureFile ([] : List ℝ) [] [] 10 = Except.ok t ∧
      t.rows.length = 0 / 10 ∧
      (10 ≤ 0 → t.header = featureKeys) ∧
      (0 < 10 → t.header = [] ∧ t.rows = [])) :=
  ⟨rfl, le_refl 10, C7_output_table [] [] [] 0 10 rfl rfl rfl (le_refl 10)⟩

/-! ## Helper lemmas: strings and driver bodies -/

theorem isInfix_append_left {α : Type} (A : List α) {c B : List α} (h : c <:+: B) :
    c <:+: A ++ B := by
  obtain ⟨s, t, hst⟩ := h
  exact ⟨A ++ s, t, by rw [← hst]; simp [List.append_assoc]⟩

theorem isInfix_append_right {α : Type} {c A : List α} (B : List α) (h : c <:+: A) :
    c <:+: A ++ B := by
  obtain ⟨s, t, hst⟩ := h
  exact ⟨s, t ++ B, by rw [← hst]; simp [List.append_assoc]⟩

theorem strContains_refl (s : String) : strContains s s := ⟨[], [], by simp⟩

theorem strContains_append_left (A : String) {c B : String} (h : strContains c B) :
    strContains c (A ++ B) := by
  unfold strContains at h ⊢
  rw [String.data_append]
  exact isInfix_append_left A.data h

theorem strContains_append_right {c A : String} (B : String) (h : strContains c A) :
    strContains c (A ++ B) := by
  unfold strContains at h ⊢
  rw [String.data_append]
  exact isInfix_append_right B.data h

theorem hasCols_false_of_missing (t : Table) (h : missingCols t ≠ []) :
    hasCols t = false := by
  by_contra hc
  rw [Bool.not_eq_false] at hc
  simp only [hasCols, List.all_eq_true] at hc
  apply h
  simp only [missingCols]
  rw [List.filter_eq_nil_iff]
  intro c hcmem
  have hcc := hc c hcmem
  have hmem : c ∈ columnsOf t := List.elem_iff.mp hcc
  simp [hmem]

theorem req_infix_suffix :
    ∀ c ∈ requiredCols, c.data <:+: " (missing acc_x, acc_y, acc_z columns)".data := by
  intro c hc
  simp only [requiredCols, List.mem_cons, List.not_mem_nil, or_false] at hc
  rcases hc with rfl | rfl | rfl
  · exact ⟨" (missing ".data, ", acc_y, acc_z columns)".data, by decide⟩
  · exact ⟨" (missing acc_x, ".data, ", acc_z columns)".data, by decide⟩
  · exact ⟨" (missing acc_x, acc_y, ".data, " columns)".data, by decide⟩

theorem joinStrs_mem_contains :
    ∀ (l : List String), ∀ c ∈ l, c.data <:+: (joinStrs l).data := by
  intro l
  induction l with
  | nil => intro c hc; simp at hc
  | cons s t ih =>
    intro c hc
    cases t with
    | nil =>
      have hcs : c = s := by simpa using hc
      subst hcs
      exact ⟨[], [], by simp [joinStrs]⟩
    | cons s2 t2 =>
      simp only [joinStrs]
      rcases List.mem_cons.mp hc with rfl | hc2
      · rw [String.data_append, String.data_append]
        exact ⟨[], ", ".data ++ (joinStrs (s2 :: t2)).data, by simp [List.append_assoc]⟩
      · rw [String.data_append]
        exact isInfix_append_left _ (ih c hc2)

theorem getCol_mem (t : Table) (c : String) (v : List ℝ) (h : getCol t c = some v) :
    c ∈ columnsOf t := by
  unfold getCol at h
  cases hf : t.find? fun p => p.1 == c with
  | none => rw [hf] at h; simp at h
  | some p =>
    have hp := List.find?_some hf
    have hmem := List.mem_of_find?_eq_some hf
    have he : p.1 = c := by simpa using hp
    rw [← he]
    exact List.mem_map_of_mem Prod.fst hmem

theorem selectCols_error_of_missing (df : Table) (h : missingCols df ≠ []) :
    selectCols df
      = Except.error ("[" ++ joinStrs (missingCols df) ++ "] not in index") := by
  unfold selectCols
  rcases hx : getCol df "acc_x" with _ | vx <;>
    rcases hy : getCol df "acc_y" with _ | vy <;>
      rcases hz : getCol df "acc_z" with _ | vz <;>
        simp only [hx, hy, hz]
  exfalso
  apply h
  have hmx := getCol_mem df "acc_x" vx hx
  have hmy := getCol_mem df "acc_y" vy hy
  have hmz := getCol_mem df "acc_z" vz hz
  simp only [missingCols]
  rw [List.filter_eq_nil_iff]
  intro c hcmem
  simp only [requiredCols, List.mem_cons, List.not_mem_nil, or_false] at hcmem
  rcases hcmem with rfl | rfl | rfl <;>
    simp [List.elem_eq_true_of_mem, hmx, hmy, hmz]

theorem preprocess_error_of_missing (df : Table) (h : missingCols df ≠ []) :
    preprocess df
      = Except.error ("[" ++ joinStrs (missingCols df) ++ "] not in index") := by
  unfold preprocess
  rw [selectCols_error_of_missing df h]

theorem processCsvFile_readerr (root : String) (outRoot : List String) (W : ℕ)
    (f : SrcFile) (e : String) (hc : f.content = Except.error e) :
    processCsvFile root outRoot W f
      = (["Processing " ++ filePathF root f ++ "...",
          "Error processing " ++ filePathF root f ++ ": " ++ e], none) := by
  obtain ⟨rel, nm, content⟩ := f
  simp only at hc
  subst hc
  rfl

theorem processCsvFile_skip (root : String) (outRoot : List String) (W : ℕ)
    (f : SrcFile) (df : Table) (hc : f.content = Except.ok df)
    (hm : missingCols df ≠ []) :
    processCsvFile root outRoot W f
      = (["Processing " ++ filePathF root f ++ "...",
          "Skipping " ++ filePathF root f ++ " (missing acc_x, acc_y, acc_z columns)"],
         none) := by
  obtain ⟨rel, nm, content⟩ := f
  simp only at hc
  subst hc
  have hcols : hasCols df = false := hasCols_false_of_missing df hm
  simp only [processCsvFile, hcols, Bool.false_eq_true, if_false]

theorem processCsvFile_extracterr (root : String) (outRoot : List String) (W : ℕ)
    (f : SrcFile) (df : Table) (e : String) (hc : f.content = Except.ok df)
    (hcols : hasCols df = true)
    (hext : extract_features_from_dataframe ((getCol df "acc_x").getD [])
      ((getCol df "acc_y").getD []) ((getCol df "acc_z").getD []) W
      = Except.error e) :
    processCsvFile root outRoot W f
      = (["Processing " ++ filePathF root f ++ "...",
          "Error processing " ++ filePathF root f ++ ": " ++ e], none) := by
  obtain ⟨rel, nm, content⟩ := f
  simp only at hc
  subst hc
  simp only [processCsvFile, hcols, if_true, hext]

theorem processCsvFile_ok (root : String) (outRoot : List String) (W : ℕ)
    (f : SrcFile) (df : Table) (rows : List (List (String × Option ℝ)))
    (hc : f.content = Except.ok df) (hcols : hasCols df = true)
    (hext : extract_features_from_dataframe ((getCol df "acc_x").getD [])
      ((getCol df "acc_y").getD []) ((getCol df "acc_z").getD []) W
      = Except.ok rows) :
    processCsvFile root outRoot W f
      = (["Processing " ++ filePathF root f ++ "...",
          "Saved features to " ++
            pathJoin (outRoot ++ f.rel ++ ["features_" ++ f.name])],
         some ⟨outRoot ++ f.rel, "features_" ++ f.name, dfOfRows rows⟩) := by
  obtain ⟨rel, nm, content⟩ := f
  simp only at hc
  subst hc
  simp only [processCsvFile, hcols, if_true, hext]

theorem processCsvFile_out (root : String) (outRoot : List String) (W : ℕ)
    (f : SrcFile) (o : FOut) (h : (processCsvFile root outRoot W f).2 = some o) :
    o.dir = outRoot ++ f.rel ∧ o.fname = "features_" ++ f.name := by
  obtain ⟨rel, nm, content⟩ := f
  rcases content with e | df
  · simp only [processCsvFile] at h
    simp at h
  · simp only [processCsvFile] at h
    by_cases hcols : hasCols df = true
    · rw [if_pos hcols] at h
      rcases hext : extract_features_from_dataframe ((getCol df "acc_x").getD [])
          ((getCol df "acc_y").getD []) ((getCol df "acc_z").getD []) W with e2 | rows
      · rw [hext] at h
        simp at h
      · rw [hext] at h
        simp only at h
        rw [← Option.some_inj.mp h]
        exact ⟨rfl, rfl⟩
    · rw [if_neg hcols] at h
      simp at h

theorem processPFile_readerr (dn : String) (pf : PFile) (e : String)
    (hc : pf.content = Except.error e) :
    processPFile dn pf
      = (["[✗] Failed to process " ++ pathJoin [pBase, dn, pf.name] ++ ": " ++ e],
         none) := by
  obtain ⟨nm, content⟩ := pf
  simp only at hc
  subst hc
  rfl

theorem processPFile_missing (dn : String) (pf : PFile) (pdf : Table)
    (hc : pf.content = Except.ok pdf) (hm : missingCols pdf ≠ []) :
    processPFile dn pf
      = (["[✗] Failed to process " ++ pathJoin [pBase, dn, pf.name] ++ ": " ++
          ("[" ++ joinStrs (missingCols pdf) ++ "] not in index")], none) := by
  obtain ⟨nm, content⟩ := pf
  simp only at hc
  subst hc
  simp only [processPFile, preprocess_error_of_missing pdf hm]

theorem processPFile_out (dn : String) (pf : PFile) (o : POut)
    (h : (processPFile dn pf).2 = some o) :
    o.dir = [pBase, pOutSeg, dn] ∧ o.fname = newFilename pf.name := by
  obtain ⟨nm, content⟩ := pf
  rcases content with e | df
  · simp only [processPFile] at h
    simp at h
  · simp only [processPFile] at h
    rcases hpre : preprocess df with e2 | pt
    · rw [hpre] at h
      simp at h
    · rw [hpre] at h
      simp only at h
      rw [← Option.some_inj.mp h]
      exact ⟨rfl, rfl⟩

theorem traverseOutputs_append (root : String) (outRoot : List String) (W : ℕ)
    (l1 l2 : List SrcFile) :
    traverseOutputs root outRoot W (l1 ++ l2)
      = traverseOutputs root outRoot W l1 ++ traverseOutputs root outRoot W l2 := by
  unfold traverseOutputs
  rw [List.flatMap_append]

theorem traverseLogs_append (root : String) (outRoot : List String) (W : ℕ)
    (l1 l2 : List SrcFile) :
    traverseLogs root outRoot W (l1 ++ l2)
      = traverseLogs root outRoot W l1 ++ traverseLogs root outRoot W l2 := by
  unfold traverseLogs
  rw [List.flatMap_append]

theorem preprocessOutputs_append (p1 p2 : List PEntry) :
    preprocessOutputs (p1 ++ p2) = preprocessOutputs p1 ++ preprocessOutputs p2 := by
  unfold preprocessOutputs
  rw [List.flatMap_append]

theorem preprocessLogs_append (p1 p2 : List PEntry) :
    preprocessLogs (p1 ++ p2) = preprocessLogs p1 ++ preprocessLogs p2 := by
  unfold preprocessLogs
  rw [List.flatMap_append]

theorem pDirOutputs_append (dn : String) (p1 p2 : List PFile) :
    pDirOutputs ⟨dn, p1 ++ p2⟩ = pDirOutputs ⟨dn, p1⟩ ++ pDirOutputs ⟨dn, p2⟩ := by
  unfold pDirOutputs
  rw [List.flatMap_append]

/-! ## Claim C4 -/

/-- Claim C4: in both pipelines, a file whose table lacks one or more of the
required axis columns is skipped with a log line that contains the file path
and the name of every missing column, no output file is created for it, and
the remaining files of the batch are processed unchanged. -/
theorem C4_missing_columns (root : String) (outRoot : List String) (W : ℕ)
    (f : SrcFile) (df : Table) (hcontent : f.content = Except.ok df)
    (hmissing : missingCols df ≠ [])
    (dn : String) (pf : PFile) (pdf : Table)
    (hpcontent : pf.content = Except.ok pdf)
    (hpmissing : missingCols pdf ≠ []) :
    ((processCsvFile root outRoot W f).2 = none ∧
      ∃ msg ∈ (processCsvFile root outRoot W f).1,
        strContains (filePathF root f) msg ∧
        ∀ c ∈ missingCols df, strContains c msg) ∧
    (∀ l1 l2 : List SrcFile,
      traverseOutputs root outRoot W (l1 ++ f :: l2)
        = traverseOutputs root outRoot W l1 ++ traverseOutputs root outRoot W l2) ∧
    ((processPFile dn pf).2 = none ∧
      ∃ msg ∈ (processPFile dn pf).1,
        strContains (pathJoin [pBase, dn, pf.name]) msg ∧
        ∀ c ∈ missingCols pdf, strContains c msg) ∧
    (∀ p1 p2 : List PFile,
      pDirOutputs ⟨dn, p1 ++ pf :: p2⟩
        = pDirOutputs ⟨dn, p1⟩ ++ pDirOutputs ⟨dn, p2⟩) := by
  have hskip := processCsvFile_skip root outRoot W f df hcontent hmissing
  have hnone : (processCsvFile root outRoot W f).2 = none := by rw [hskip]
  have hpmiss := processPFile_missing dn pf pdf hpcontent hpmissing
  have hpnone : (processPFile dn pf).2 = none := by rw [hpmiss]
  have hout1 : traverseOutputs root outRoot W [f] = [] := by
    unfold traverseOutputs
    simp only [List.flatMap_cons, List.flatMap_nil, List.append_nil]
    split
    · rw [hnone]
      rfl
    · rfl
  have hpout1 : pDirOutputs ⟨dn, [pf]⟩ = [] := by
    unfold pDirOutputs
    simp only [List.flatMap_cons, List.flatMap_nil, List.append_nil]
    split
    · rw [hpnone]
      rfl
    · rfl
  refine ⟨⟨hnone, ?_⟩, ?_, ⟨hpnone, ?_⟩, ?_⟩
  · refine ⟨"Skipping " ++ filePathF root f ++ " (missing acc_x, acc_y, acc_z columns)",
      ?_, ?_, ?_⟩
    · rw [hskip]
      exact List.Mem.tail _ (List.Mem.head _)
    · exact strContains_append_right _
        (strContains_append_left _ (strContains_refl _))
    · intro c hcmem
      have hreq : c ∈ requiredCols := by
        unfold missingCols at hcmem
        exact (List.mem_filter.mp hcmem).1
      exact strContains_append_left _ (req_infix_suffix c hreq)
  · intro l1 l2
    rw [show l1 ++ f :: l2 = l1 ++ [f] ++ l2 by simp]
    rw [traverseOutputs_append, traverseOutputs_append, hout1, List.append_nil]
  · refine ⟨"[✗] Failed to process " ++ pathJoin [pBase, dn, pf.name] ++ ": " ++
      ("[" ++ joinStrs (missingCols pdf) ++ "] not in index"), ?_, ?_, ?_⟩
    · rw [hpmiss]
      exact List.Mem.head _
    · exact strContains_append_right _
        (strContains_append_right _
          (strContains_append_left _ (strContains_refl _)))
    · intro c hcmem
      exact strContains_append_left _
        (strContains_append_right _
          (strContains_append_left _ (joinStrs_mem_contains (missingCols pdf) c hcmem)))
  · intro p1 p2
    rw [show p1 ++ pf :: p2 = p1 ++ [pf] ++ p2 by simp]
    rw [pDirOutputs_append, pDirOutputs_append, hpout1, List.append_nil]

/-- Witness for C4 on a table with columns `acc_x, acc_z` only. -/
theorem C4_missing_columns_witness :
    wFile.content = Except.ok wTable ∧ missingCols wTable ≠ [] ∧
    wPFile.content = Except.ok wTable ∧
    (((processCsvFile "R" ["O"] 100 wFile).2 = none ∧
      ∃ msg ∈ (processCsvFile "R" ["O"] 100 wFile).1,
        strContains (filePathF "R" wFile) msg ∧
        ∀ c ∈ missingCols wTable, strContains c msg) ∧
    (∀ l1 l2 : List SrcFile,
      traverseOutputs "R" ["O"] 100 (l1 ++ wFile :: l2)
        = traverseOutputs "R" ["O"] 100 l1 ++ traverseOutputs "R" ["O"] 100 l2) ∧
    ((processPFile "A" wPFile).2 = none ∧
      ∃ msg ∈ (processPFile "A" wPFile).1,
        strContains (pathJoin [pBase, "A", wPFile.name]) msg ∧
        ∀ c ∈ missingCols wTable, strContains c msg) ∧
    (∀ p1 p2 : List PFile,
      pDirOutputs ⟨"A", p1 ++ wPFile :: p2⟩
        = pDirOutputs ⟨"A", p1⟩ ++ pDirOutputs ⟨"A", p2⟩)) :=
  ⟨rfl, by decide, rfl,
    C4_missing_columns "R" ["O"] 100 wFile wTable rfl (by decide) "A" wPFile wTable
      rfl (by decide)⟩

/-! ## Claim C5 -/

/-- Claim C5: every exception raised while processing one file is caught at
the Driver boundary: the per-file body is a total function, a failing file
logs the file path together with the error message and writes nothing, and
the outcome of a batch splits file-by-file, so a failure neither propagates
nor aborts the processing of the remaining files — in both pipelines. -/
theorem C5_exception_isolation (root : String) (outRoot : List String) (W : ℕ) :
    (∀ (l1 l2 : List SrcFile) (f : SrcFile),
      traverseOutputs root outRoot W (l1 ++ f :: l2)
          = traverseOutputs root outRoot W l1 ++ traverseOutputs root outRoot W [f]
            ++ traverseOutputs root outRoot W l2 ∧
      traverseLogs root outRoot W (l1 ++ f :: l2)
          = traverseLogs root outRoot W l1 ++ traverseLogs root outRoot W [f]
            ++ traverseLogs root outRoot W l2) ∧
    (∀ (f : SrcFile) (e : String), f.content = Except.error e →
      (processCsvFile root outRoot W f).2 = none ∧
      (processCsvFile root outRoot W f).1
        = ["Processing " ++ filePathF root f ++ "...",
           "Error processing " ++ filePathF root f ++ ": " ++ e]) ∧
    (∀ (f : SrcFile) (df : Table) (e : String), f.content = Except.ok df →
      hasCols df = true →
      extract_features_from_dataframe ((getCol df "acc_x").getD [])
        ((getCol df "acc_y").getD []) ((getCol df "acc_z").getD []) W
        = Except.error e →
      (processCsvFile root outRoot W f).2 = none ∧
      (processCsvFile root outRoot W f).1
        = ["Processing " ++ filePathF root f ++ "...",
           "Error processing " ++ filePathF root f ++ ": " ++ e]) ∧
    (∀ p1 p2 : List PEntry,
      preprocessOutputs (p1 ++ p2) = preprocessOutputs p1 ++ preprocessOutputs p2 ∧
      preprocessLogs (p1 ++ p2) = preprocessLogs p1 ++ preprocessLogs p2) ∧
    (∀ (dn : String) (pf : PFile) (e : String), pf.content = Except.error e →
      (processPFile dn pf).2 = none ∧
      (processPFile dn pf).1
        = ["[✗] Failed to process " ++ pathJoin [pBase, dn, pf.name] ++ ": " ++ e]) := by
  refine ⟨?_, ?_, ?_, ?_, ?_⟩
  · intro l1 l2 f
    constructor
    · rw [show l1 ++ f :: l2 = l1 ++ [f] ++ l2 by simp]
      rw [traverseOutputs_append, traverseOutputs_append]
    · rw [show l1 ++ f :: l2 = l1 ++ [f] ++ l2 by simp]
      rw [traverseLogs_append, traverseLogs_append]
  · intro f e hc
    rw [processCsvFile_readerr root outRoot W f e hc]
    exact ⟨rfl, rfl⟩
  · intro f df e hc hcols hext
    rw [processCsvFile_extracterr root outRoot W f df e hc hcols hext]
    exact ⟨rfl, rfl⟩
  · intro p1 p2
    exact ⟨preprocessOutputs_append p1 p2, preprocessLogs_append p1 p2⟩
  · intro dn pf e hc
    rw [processPFile_readerr dn pf e hc]
    exact ⟨rfl, rfl⟩

/-- Witness for C5 on a file whose read raises `boom`. -/
theorem C5_exception_isolation_witness :
    wBadFile.content = Except.error "boom" ∧
    wBadPFile.content = Except.error "boom" ∧
    ((processCsvFile "R" ["O"] 100 wBadFile).2 = none ∧
      (processCsvFile "R" ["O"] 100 wBadFile).1
        = ["Processing " ++ filePathF "R" wBadFile ++ "...",
           "Error processing " ++ filePathF "R" wBadFile ++ ": " ++ "boom"]) ∧
    ((processPFile "A" wBadPFile).2 = none ∧
      (processPFile "A" wBadPFile).1
        = ["[✗] Failed to process " ++ pathJoin [pBase, "A", wBadPFile.name]
            ++ ": " ++ "boom"]) :=
  ⟨rfl, rfl,
    (C5_exception_isolation "R" ["O"] 100).2.1 wBadFile "boom" rfl,
    (C5_exception_isolation "R" ["O"] 100).2.2.2.2 "A" wBadPFile "boom" rfl⟩

/-! ## Claim C9 (amended) -/

theorem rfindDot_append_some (l1 l2 : List Char) (k : ℕ) (h : rfindDot l2 = some k) :
    rfindDot (l1 ++ l2) = some (l1.length + k) := by
  induction l1 with
  | nil => simpa using h
  | cons c t ih =>
    show rfindDot (c :: (t ++ l2)) = some ((c :: t).length + k)
    rw [show rfindDot (c :: (t ++ l2)) = (match rfindDot (t ++ l2) with
        | some k2 => some (k2 + 1)
        | none => if c = '.' then some 0 else none) from rfl]
    rw [ih]
    show some (t.length + k + 1) = some ((c :: t).length + k)
    simp only [List.length_cons]
    congr 1
    omega

theorem splitext_csv (s : String) (h : ∃ ch ∈ s.data, ch ≠ '.') :
    splitext (s ++ ".csv") = (s, ".csv") := by
  have hf : rfindDot (s ++ ".csv").data = some (s.data.length + 0) := by
    rw [String.data_append]
    exact rfindDot_append_some s.data ".csv".data 0 (by decide)
  have htake : (s ++ ".csv").data.take (s.data.length + 0) = s.data := by
    rw [String.data_append, Nat.add_zero]
    exact List.take_left s.data ".csv".data
  have hdrop : (s ++ ".csv").data.drop (s.data.length + 0) = ".csv".data := by
    rw [String.data_append, Nat.add_zero]
    exact List.drop_left s.data ".csv".data
  have hall : ((s ++ ".csv").data.take (s.data.length + 0)).all
      (fun c => c = '.') = false := by
    rw [htake]
    obtain ⟨ch, hch, hne⟩ := h
    by_contra hcon
    rw [Bool.not_eq_false, List.all_eq_true] at hcon
    have hd := hcon ch hch
    simp at hd
    exact hne hd
  simp only [splitext, hf]
  rw [if_neg (by rw [hall]; exact Bool.false_ne_true), htake, hdrop]

theorem newFilename_csv (s : String) (h : ∃ ch ∈ s.data, ch ≠ '.') :
    newFilename (s ++ ".csv") = s ++ "_preprocessed.csv" := by
  unfold newFilename
  rw [splitext_csv s h, String.append_assoc]
  congr 1

/-- Claim C9, amended: the feature pipeline walks the whole tree — every
output it writes comes from a file whose name ends in `.csv`, at any depth,
and lands in the output root at the path mirroring the file's relative
directory with the name prefixed `features_`, and conversely every
successfully processed csv file is written there; files without the `.csv`
suffix are skipped silently.  The normalizer pipeline, however, is not
recursive: it only processes csv files that sit directly inside a first-level
folder other than the output folder, writing them one level deep under
`Dataset/preprocessed_data` with the name suffixed `_preprocessed` (a csv at
any other depth is never processed; see the counterexample). -/
theorem C9_traversal (root : String) (outRoot : List String) (W : ℕ) :
    (∀ (files : List SrcFile) (o : FOut), o ∈ traverseOutputs root outRoot W files →
      ∃ f ∈ files, strSuffix ".csv" f.name = true ∧
        (processCsvFile root outRoot W f).2 = some o ∧
        o.dir = outRoot ++ f.rel ∧ o.fname = "features_" ++ f.name) ∧
    (∀ (files : List SrcFile) (f : SrcFile) (o : FOut), f ∈ files →
      strSuffix ".csv" f.name = true → (processCsvFile root outRoot W f).2 = some o →
      o ∈ traverseOutputs root outRoot W files) ∧
    (∀ f : SrcFile, strSuffix ".csv" f.name = false →
      traverseOutputs root outRoot W [f] = [] ∧ traverseLogs root outRoot W [f] = []) ∧
    (∀ (entries : List PEntry) (o : POut), o ∈ preprocessOutputs entries →
      ∃ d : PDir, PEntry.dir d ∈ entries ∧ d.dname ≠ pOutSeg ∧
        ∃ pf ∈ d.files, strSuffix ".csv" pf.name = true ∧
          (processPFile d.dname pf).2 = some o ∧
          o.dir = [pBase, pOutSeg, d.dname] ∧ o.fname = newFilename pf.name) ∧
    (∀ (entries : List PEntry) (d : PDir) (pf : PFile) (o : POut),
      PEntry.dir d ∈ entries → d.dname ≠ pOutSeg → pf ∈ d.files →
      strSuffix ".csv" pf.name = true → (processPFile d.dname pf).2 = some o →
      o ∈ preprocessOutputs entries) ∧
    (∀ (nm : String) (content : Except String Table),
      pEntryOutputs (PEntry.file nm content) = []) ∧
    (∀ d : PDir, d.dname = pOutSeg → pEntryOutputs (PEntry.dir d) = []) ∧
    (∀ s : String, (∃ ch ∈ s.data, ch ≠ '.') →
      newFilename (s ++ ".csv") = s ++ "_preprocessed.csv") := by
  refine ⟨?_, ?_, ?_, ?_, ?_, ?_, ?_, ?_⟩
  · intro files o ho
    unfold traverseOutputs at ho
    obtain ⟨f, hf, hmem⟩ := List.mem_flatMap.mp ho
    refine ⟨f, hf, ?_⟩
    by_cases hsuf : strSuffix ".csv" f.name = true
    · rw [if_pos hsuf] at hmem
      have hsome : (processCsvFile root outRoot W f).2 = some o := by
        simpa using hmem
      obtain ⟨hd, hn⟩ := processCsvFile_out root outRoot W f o hsome
      exact ⟨hsuf, hsome, hd, hn⟩
    · rw [if_neg hsuf] at hmem
      simp at hmem
  · intro files f o hf hsuf hsome
    unfold traverseOutputs
    refine List.mem_flatMap.mpr ⟨f, hf, ?_⟩
    rw [if_pos hsuf, hsome]
    simp
  · intro f hsuf
    constructor
    · unfold traverseOutputs
      simp only [List.flatMap_cons, List.flatMap_nil, List.append_nil]
      rw [if_neg (by rw [hsuf]; exact Bool.false_ne_true)]
    · unfold traverseLogs
      simp only [List.flatMap_cons, List.flatMap_nil, List.append_nil]
      rw [if_neg (by rw [hsuf]; exact Bool.false_ne_true)]
  · intro entries o ho
    unfold preprocessOutputs at ho
    obtain ⟨entry, hentry, hmem⟩ := List.mem_flatMap.mp ho
    cases entry with
    | file nm content => simp [pEntryOutputs] at hmem
    | dir d =>
      by_cases hdn : d.dname = pOutSeg
      · rw [show pEntryOutputs (PEntry.dir d) = [] by
          simp [pEntryOutputs, hdn]] at hmem
        simp at hmem
      · rw [show pEntryOutputs (PEntry.dir d) = pDirOutputs d by
          simp [pEntryOutputs, hdn]] at hmem
        unfold pDirOutputs at hmem
        obtain ⟨pf, hpf, hmem2⟩ := List.mem_flatMap.mp hmem
        refine ⟨d, hentry, hdn, pf, hpf, ?_⟩
        by_cases hsuf : strSuffix ".csv" pf.name = true
        · rw [if_pos hsuf] at hmem2
          have hsome : (processPFile d.dname pf).2 = some o := by
            simpa using hmem2
          obtain ⟨hd, hn⟩ := processPFile_out d.dname pf o hsome
          exact ⟨hsuf, hsome, hd, hn⟩
        · rw [if_neg hsuf] at hmem2
          simp at hmem2
  · intro entries d pf o hd hdn hpf hsuf hsome
    unfold preprocessOutputs
    refine List.mem_flatMap.mpr ⟨PEntry.dir d, hd, ?_⟩
    rw [show pEntryOutputs (PEntry.dir d) = pDirOutputs d by
      simp [pEntryOutputs, hdn]]
    unfold pDirOutputs
    refine List.mem_flatMap.mpr ⟨pf, hpf, ?_⟩
    rw [if_pos hsuf, hsome]
    simp
  · intro nm content
    rfl
  · intro d hdn
    simp [pEntryOutputs, hdn]
  · intro s h
    exact newFilename_csv s h

/-- Counterexample to the original claim C9: the normalizer batch loop skips
a csv file that sits directly under the input root (depth 1): no output is
written for it, although it ends in the data-file extension and its table is
valid. -/
theorem C9_traversal_counterexample :
    preprocessOutputs [PEntry.file "stray.csv"
      (Except.ok [("acc_x", [0]), ("acc_y", [0]), ("acc_z", [0])])] = [] ∧
    strSuffix ".csv" "stray.csv" = true :=
  ⟨rfl, by decide⟩

/-- Witness for C9 via the output-name derivation on the stem `a`. -/
theorem C9_traversal_witness :
    (∃ ch ∈ ("a" : String).data, ch ≠ '.') ∧
    newFilename ("a" ++ ".csv") = "a" ++ "_preprocessed.csv" :=
  ⟨by decide, (C9_traversal "R" ["O"] 100).2.2.2.2.2.2.2 "a" (by decide)⟩

end AirWriting
